import Mathlib

/-!
Verification development for the api-explorer repository.

The development shallowly embeds the URL-parsing, GitHub-fetch and
doc-list logic of the app:

* `parseGitHubUrl` embeds `src/lib/github.js` lines 9-50.  The browser
  built-ins used there are modelled explicitly: `jsTrim` models
  `String.prototype.trim`, and `urlNormalize` models the
  `new URL(trimmed); u.origin + u.pathname` step for http/https URLs:
  it truncates at the first `?` or `#` (query/fragment, per the
  source's own doc comment) and normalizes `\` to `/` (the WHATWG
  parser treats a backslash as a path separator in special-scheme
  URLs).  Host lower-casing is absorbed by the case-insensitive `/i`
  regexes.  Dot-segment resolution, tab/newline removal and path
  percent-encoding are not modelled: the URL-agreement theorem's
  hypotheses confine it to inputs on which those transformations are
  the identity (`isDotSegment`, `urlFilter` below express the excluded
  shapes), and the record-shape theorem is independent of the
  normalizer.
* `isCommitSha`, `fetchBlobByCommit`, `fetchYamlFromGitHub` embed
  `src/lib/github.js` lines 55-181, with the network modelled as a
  `World` of HTTP responses and the issued requests recorded as a trace.
* `handleAdd`, `handleRename`, `handleRemove`, `removeSelection` embed
  the DocList component handlers; `loadDocs` / `loadToken` embed the
  storage module with `localStorage` and `JSON.parse` as oracles.
* `resolveFetch` embeds the post-await continuation of `loadDoc` in
  `App.jsx` (the stale-response guard).
-/

namespace ApiExplorer

/-- JS whitespace test used by `jsTrim` (ASCII + common Unicode space). -/
def isJsWs (c : Char) : Bool :=
  c = ' ' || c = '\t' || c = '\n' || c = '\r' ||
  c = '\u000b' || c = '\u000c' || c = '\u00a0' || c = '\u2028' || c = '\u2029' ||
  c = '\ufeff'

/-- Model of `String.prototype.trim` on character lists. -/
def jsTrimL (cs : List Char) : List Char :=
  ((cs.dropWhile isJsWs).reverse.dropWhile isJsWs).reverse

/-- Characters that start the query string or fragment of a URL. -/
def isQueryHash (c : Char) : Bool := c = '?' || c = '#'

/-- Case-insensitive (ASCII) literal-prefix matcher: drops `pre` from the
front of `cs` when it matches up to ASCII case, as the `/i` regexes do. -/
def dropCaseLit : List Char → List Char → Option (List Char)
  | [], cs => some cs
  | _ :: _, [] => none
  | p :: ps, c :: cs => if p.toLower = c.toLower then dropCaseLit ps cs else none

/-- Does the (trimmed) string start with `http://` or `https://`?  Used to
decide whether `new URL` succeeds and query/hash stripping applies. -/
def startsHttp (cs : List Char) : Bool :=
  (dropCaseLit "http://".data cs).isSome || (dropCaseLit "https://".data cs).isSome

/-- WHATWG URL parsing treats `\` as `/` in special-scheme URLs. -/
def mapSlash (cs : List Char) : List Char :=
  cs.map (fun c => if c = '\\' then '/' else c)

/-- The URL parser's input preprocessor removes ASCII tab, LF and CR. -/
def urlFilter (cs : List Char) : List Char :=
  cs.filter (fun c => !(c = '\t' || c = '\n' || c = '\r'))

/-- Splits a character list at every `/` (like the URL path segments). -/
def splitOnSlashL : List Char → List (List Char)
  | [] => [[]]
  | c :: cs =>
    if c = '/' then [] :: splitOnSlashL cs
    else
      match splitOnSlashL cs with
      | [] => [[c]]
      | s :: ss => (c :: s) :: ss

/-- Single- or double-dot path segments per the URL Standard: `.` and
`%2e` (case-insensitive), and any two-combination of them. -/
def isDotSegment (s : List Char) : Bool :=
  let l := s.map Char.toLower
  l = ['.'] || l = ['%', '2', 'e'] ||
  l = ['.', '.'] || l = ['.', '%', '2', 'e'] ||
  l = ['%', '2', 'e', '.'] || l = ['%', '2', 'e', '%', '2', 'e']

/-- Model of `const u = new URL(trimmed); trimmed = u.origin + u.pathname`
for http/https URLs: strip the query string and fragment (the source's
stated purpose) and normalize backslashes to slashes; on parse failure
the string is kept as-is.  Dot-segment resolution, tab/newline removal
and percent-encoding are not modelled (see the module comment). -/
def urlNormalize (cs : List Char) : List Char :=
  if startsHttp cs then mapSlash (cs.takeWhile (fun c => !isQueryHash c)) else cs

/-- One step of the anchored regexes `([^/]+)/`: the maximal nonempty run
of non-slash characters, followed by a mandatory `/`. -/
def splitSeg (cs : List Char) : Option (List Char × List Char) :=
  let seg := cs.takeWhile (fun c => c ≠ '/')
  match seg, cs.dropWhile (fun c => c ≠ '/') with
  | [], _ => none
  | _, [] => none
  | _, _ :: rest => some (seg, rest)

/-- JS line terminators, which `.` does not match in `(.+)$`. -/
def isLineTerm (c : Char) : Bool :=
  c = '\n' || c = '\r' || c = '\u2028' || c = '\u2029'

/-- The common tail `([^/]+)/([^/]+)/([^/]+)/(.+)$` of both regexes:
owner, repo, branch (nonempty, slash-free) and the raw path capture
(nonempty, no line terminators). -/
def matchSegs (cs : List Char) : Option (List Char × List Char × List Char × List Char) :=
  match splitSeg cs with
  | none => none
  | some (o, r1) =>
    match splitSeg r1 with
    | none => none
    | some (r, r2) =>
      match splitSeg r2 with
      | none => none
      | some (b, r3) =>
        if r3 = [] || r3.any isLineTerm then none
        else some (o, r, b, r3)

/-- `path.replace(/^\//, '')`: removes at most one leading slash. -/
def stripOneSlash : List Char → List Char
  | [] => []
  | c :: cs => if c = '/' then cs else c :: cs

/-- `.replace(/\/+/g, '/')`: collapses every run of slashes to one. -/
def collapseSlashes : List Char → List Char
  | [] => []
  | [c] => [c]
  | a :: b :: cs =>
    if a = '/' && b = '/' then collapseSlashes (b :: cs)
    else a :: collapseSlashes (b :: cs)

/-- The normalized tuple `{ owner, repo, branch, path, key }` returned by
`parseGitHubUrl`. -/
structure Normalized where
  owner : String
  repo : String
  branch : String
  path : String
  key : String
  deriving Repr, DecidableEq

/-- Builds the returned record from the four captures, exactly as both
regex branches of the source do. -/
def mkNormalized (o r b p : List Char) : Normalized :=
  { owner := String.mk o
    repo := String.mk r
    branch := String.mk b
    path := String.mk (stripOneSlash p)
    key := String.mk (collapseSlashes (o ++ '/' :: r ++ '/' :: b ++ '/' :: p)) }

/-- The `^https?:\/\/` part of both regexes. -/
def schemeDrop (cs : List Char) : Option (List Char) :=
  match dropCaseLit "http://".data cs with
  | some t => some t
  | none => dropCaseLit "https://".data cs

/-- The part of the raw regex after the host: build the record from the
four captures. -/
def rawSegs (cs : List Char) : Option Normalized :=
  match matchSegs cs with
  | none => none
  | some (o, r, b, p) => some (mkNormalized o r b p)

/-- The raw-URL branch:
`^https?:\/\/raw\.githubusercontent\.com\/([^/]+)\/([^/]+)\/([^/]+)\/(.+)$` with `/i`. -/
def matchRaw (cs : List Char) : Option Normalized :=
  match schemeDrop cs with
  | none => none
  | some s1 =>
    match dropCaseLit "raw.githubusercontent.com/".data s1 with
    | none => none
    | some s2 => rawSegs s2

/-- The part of the blob regex after the host:
`([^/]+)/([^/]+)/blob/([^/]+)/(.+)$` with `/i`. -/
def blobSegs (cs : List Char) : Option Normalized :=
  match splitSeg cs with
  | none => none
  | some (o, r1) =>
    match splitSeg r1 with
    | none => none
    | some (r, r2) =>
      match splitSeg r2 with
      | none => none
      | some (bl, r3) =>
        if bl.map Char.toLower = "blob".data then
          match splitSeg r3 with
          | none => none
          | some (b, r4) =>
            if r4 = [] || r4.any isLineTerm then none
            else some (mkNormalized o r b r4)
        else none

/-- The blob-URL branch:
`^https?:\/\/(?:www\.)?github\.com\/([^/]+)\/([^/]+)\/blob\/([^/]+)\/(.+)$` with `/i`. -/
def matchBlob (cs : List Char) : Option Normalized :=
  match schemeDrop cs with
  | none => none
  | some s1 =>
    match dropCaseLit "github.com/".data ((dropCaseLit "www.".data s1).getD s1) with
    | none => none
    | some s3 => blobSegs s3

/-- `parseGitHubUrl` on a string input (the guard `!url` has already let
nonempty strings through): trim, URL-normalize, try the raw regex, then
the blob regex. -/
def parseList (cs : List Char) : Option Normalized :=
  match matchRaw (urlNormalize (jsTrimL cs)) with
  | some n => some n
  | none => matchBlob (urlNormalize (jsTrimL cs))

/-- JS values reaching `parseGitHubUrl`: a string, or anything else
(`null`, `undefined`, numbers, objects, ...). -/
inductive JsInput where
  | str (s : String)
  | nonString
  deriving Repr, DecidableEq

/-- `parseGitHubUrl` (src/lib/github.js lines 9-50):
`if (!url || typeof url !== 'string') return null`, then trim, URL
normalization, and the two regex branches. -/
def parseGitHubUrl : JsInput → Option Normalized
  | .nonString => none
  | .str s => if s = "" then none else parseList s.data

/-- Convenience entry point for string inputs. -/
def parseUrlStr (s : String) : Option Normalized := parseGitHubUrl (.str s)

example : parseUrlStr "https://github.com/octo/demo/blob/main/specs/api.yaml" =
    some { owner := "octo", repo := "demo", branch := "main",
           path := "specs/api.yaml", key := "octo/demo/main/specs/api.yaml" } := by
  decide

example : parseUrlStr "https://raw.githubusercontent.com/octo/demo/main/specs/api.yaml?raw=true" =
    some { owner := "octo", repo := "demo", branch := "main",
           path := "specs/api.yaml", key := "octo/demo/main/specs/api.yaml" } := by
  decide

example : parseUrlStr "https://raw.githubusercontent.com/o/r/b//" =
    some { owner := "o", repo := "r", branch := "b", path := "", key := "o/r/b/" } := by
  decide

example : parseUrlStr "https://raw.githubusercontent.com/o/r/b///p" =
    some { owner := "o", repo := "r", branch := "b", path := "/p", key := "o/r/b/p" } := by
  decide

example : parseUrlStr "not a url" = none := by decide

/-- `isCommitSha` (src/lib/github.js lines 55-57): `/^[0-9a-f]{40}$/i`. -/
def isHexChar (c : Char) : Bool :=
  c.isDigit || ('a' ≤ c && c ≤ 'f') || ('A' ≤ c && c ≤ 'F')

/-- Full commit SHA test: 40 hex characters, case-insensitive. -/
def isCommitSha (ref : String) : Bool :=
  ref.data.length = 40 && ref.data.all isHexChar

/-- `fetch(...).ok`: status in the 200-299 range. -/
def statusOk (s : Nat) : Bool := 200 ≤ s && s < 300

/-- The four GitHub endpoints the module can hit: the Contents API and
the Git Data API (commit, tree, blob). -/
inductive Req where
  | contents
  | gitCommit
  | gitTree
  | gitBlob
  deriving Repr, DecidableEq

/-- An entry of the `tree.tree` array returned by the Git trees endpoint
(only the fields the code reads). -/
structure TreeEntry where
  path : String
  type : String
  sha : Option String
  deriving Repr, DecidableEq

/-- The network, as the responses each endpoint would return: status
codes, the JSON fields the code reads, and the raw text bodies.
`contentsJsonMessage` is `data.message` of the contents response
(`none` when the body is not JSON or has no message, matching
`res.json().catch(() => ({}))`). -/
structure World where
  contentsStatus : Nat
  contentsStatusText : String
  contentsText : String
  contentsJsonMessage : Option String
  commitStatus : Nat
  commitTreeSha : Option String
  treeStatus : Nat
  treeTruncated : Bool
  treeEntries : Option (List TreeEntry)
  blobStatus : Nat
  blobText : String
  deriving Repr, DecidableEq

/-- Literal-prefix test on character lists. -/
def startsWithL : List Char → List Char → Bool
  | [], _ => true
  | _ :: _, [] => false
  | p :: ps, c :: cs => p = c && startsWithL ps cs

/-- Contiguous-substring test on character lists. -/
def hasInfix : List Char → List Char → Bool
  | pat, [] => pat.isEmpty
  | pat, c :: cs => startsWithL pat (c :: cs) || hasInfix pat cs

/-- `/rate limit/i.test(msg)`: case-insensitive substring test. -/
def mentionsRateLimit (msg : String) : Bool :=
  hasInfix "rate limit".data (msg.data.map Char.toLower)

/-- `fetchBlobByCommit` (src/lib/github.js lines 67-123): commit → tree →
blob via the Git Data API, returning the requests issued and either the
blob text or the thrown error message. -/
def fetchBlobByCommit (w : World) (path : String) : List Req × Except String String :=
  if w.commitStatus = 401 then
    ([.gitCommit], .error "Invalid or expired GitHub token. Set a valid token in Settings (sidebar) with the \"repo\" scope.")
  else if w.commitStatus = 403 then
    ([.gitCommit], .error "Access denied. Ensure your token is set in Settings and has the \"repo\" scope for private repos.")
  else if w.commitStatus = 404 then
    ([.gitCommit], .error "Commit not found or no access. Set your token in Settings (sidebar). Classic tokens need \"repo\" scope; fine-grained tokens need Contents: Read for this repository.")
  else if !statusOk w.commitStatus then
    ([.gitCommit], .error ("GitHub API error: " ++ toString w.commitStatus))
  else match w.commitTreeSha with
  | none => ([.gitCommit], .error "Commit has no tree.")
  | some _ =>
    if w.treeStatus = 404 then
      ([.gitCommit, .gitTree], .error "Tree not found.")
    else if !statusOk w.treeStatus then
      ([.gitCommit, .gitTree], .error ("GitHub API error: " ++ toString w.treeStatus))
    else if w.treeTruncated then
      ([.gitCommit, .gitTree], .error "Repository tree is too large. Try using a branch name in the URL instead of a commit SHA.")
    else match (w.treeEntries.getD []).find? (fun e => e.path == path && e.type == "blob") with
    | none =>
      ([.gitCommit, .gitTree], .error ("Path \"" ++ path ++ "\" not found in this commit. Check the file path."))
    | some entry =>
      match entry.sha with
      | none =>
        ([.gitCommit, .gitTree], .error ("Path \"" ++ path ++ "\" not found in this commit. Check the file path."))
      | some _ =>
        if !statusOk w.blobStatus then
          ([.gitCommit, .gitTree, .gitBlob], .error ("GitHub API error: " ++ toString w.blobStatus))
        else
          ([.gitCommit, .gitTree, .gitBlob], .ok w.blobText)

/-- `fetchYamlFromGitHub` (src/lib/github.js lines 142-181): Contents API
first; on 404 with a commit-SHA ref, the Git Data fallback (whose thrown
errors propagate); otherwise status-specific error messages.  `token`
records whether a token was passed (it only selects messages). -/
def fetchYamlFromGitHub (w : World) (n : Normalized) (token : Bool) :
    List Req × Except String String :=
  if statusOk w.contentsStatus then
    ([.contents], .ok w.contentsText)
  else if w.contentsStatus = 404 && isCommitSha n.branch then
    let (reqs, r) := fetchBlobByCommit w n.path
    (.contents :: reqs, r)
  else if w.contentsStatus = 404 then
    let hint := if token then
        "Check that the URL is correct and your token has the \"repo\" scope (for private repos)."
      else
        "If this is a private repo, add a GitHub token in Settings (with \"repo\" scope)."
    ([.contents], .error ("File not found. Requested: " ++ n.owner ++ "/" ++ n.repo ++
      " @ " ++ n.branch ++ " → " ++ n.path ++ " — " ++ hint))
  else if w.contentsStatus = 403 then
    if (w.contentsJsonMessage.getD "") ≠ "" && mentionsRateLimit (w.contentsJsonMessage.getD "") then
      ([.contents], .error "GitHub rate limit exceeded. Try again later or add a token.")
    else
      ([.contents], .error (if token then
        "Access denied (403). Ensure your token has the \"repo\" scope."
      else
        "Access denied. Add a GitHub token in Settings."))
  else if w.contentsStatus = 401 then
    ([.contents], .error (if token then
      "Invalid or expired GitHub token. Create a new token and update Settings."
    else
      "Unauthorized. For private repos, add a GitHub token in Settings."))
  else
    ([.contents], .error ("GitHub API error: " ++ toString w.contentsStatus ++ " " ++
      w.contentsStatusText))

/-- A persisted record (`DocEntry` in src/lib/storage.js): id, optional
user name, fallback label, original URL, normalized tuple. -/
structure DocEntry where
  id : String
  name : Option String
  label : String
  githubUrl : String
  normalized : Normalized
  deriving Repr, DecidableEq

/-- `name.trim() || undefined`. -/
def trimOrNone (s : String) : Option String :=
  let t := String.mk (jsTrimL s.data)
  if t = "" then none else some t

/-- `normalized.path.split('/').pop() || 'API Doc'`. -/
def lastSegLabel (path : String) : String :=
  let last := (path.splitOn "/").getLastD ""
  if last = "" then "API Doc" else last

/-- Result of the Add handler: the stored list afterwards, the add-error
message (`''` when cleared), and the id passed to `onSelect` if any. -/
structure AddResult where
  docs : List DocEntry
  addError : String
  select : Option String
  deriving Repr, DecidableEq

/-- `handleAdd` (DocList component): parse the input URL, reject
duplicates by normalized key, otherwise append a fresh record and select
it.  `newId` stands for the `generateId()` call. -/
def handleAdd (docs : List DocEntry) (inputUrl inputName newId : String) : AddResult :=
  match parseUrlStr inputUrl with
  | none => ⟨docs, "Invalid GitHub URL. Use a blob or raw URL to a YAML file.", none⟩
  | some n =>
    if docs.any (fun d => d.normalized.key == n.key) then
      ⟨docs, "This doc is already in the list.", none⟩
    else
      ⟨docs ++ [{ id := newId, name := trimOrNone inputName,
                  label := lastSegLabel n.path,
                  githubUrl := String.mk (jsTrimL inputUrl.data),
                  normalized := n }], "", some newId⟩

/-- `handleRename` (DocList component): map over the list, replacing the
`name` field of entries whose id matches. -/
def handleRename (docs : List DocEntry) (id newName : String) : List DocEntry :=
  docs.map (fun d => if d.id == id then { d with name := trimOrNone newName } else d)

/-- `handleRemove` (DocList component): filter out entries whose id
matches. -/
def handleRemove (docs : List DocEntry) (id : String) : List DocEntry :=
  docs.filter (fun d => d.id ≠ id)

/-- The selection update performed by `handleRemove`:
`if (selectedId === id) onSelect(next[0]?.id ?? null)`. -/
def removeSelection (docs : List DocEntry) (selectedId : Option String) (id : String) :
    Option String :=
  let next := handleRemove docs id
  if selectedId = some id then next.head?.map (fun d => d.id) else selectedId

/-- A `localStorage.getItem` call: it can throw, return `null` (missing
key), or return the stored string. -/
inductive StorageRead where
  | throws
  | value (v : Option String)
  deriving Repr, DecidableEq

/-- What `JSON.parse` does to a given string: throw, produce an array
(whose elements the code does not validate), or produce a non-array
value. -/
inductive JsonOutcome where
  | throws
  | array (xs : List DocEntry)
  | nonArray
  deriving Repr, DecidableEq

/-- `loadDocs` (src/lib/storage.js lines 17-26), with the storage read
and the `JSON.parse` oracle as parameters: `[]` on a thrown read, a
missing or empty string, a parse error, or non-array JSON; the parsed
array otherwise. -/
def loadDocs (read : StorageRead) (jsonParse : String → JsonOutcome) : List DocEntry :=
  match read with
  | .throws => []
  | .value none => []
  | .value (some raw) =>
    if raw = "" then []
    else match jsonParse raw with
    | .throws => []
    | .array xs => xs
    | .nonArray => []

/-- `loadToken` (src/lib/storage.js lines 52-58): the stored string, or
`''` when the read throws or the key is missing. -/
def loadToken (read : StorageRead) : String :=
  match read with
  | .throws => ""
  | .value none => ""
  | .value (some s) => s

/-- The view state touched when a fetch resolves in `App.jsx`. -/
structure ViewState where
  fetchedYaml : Option String
  error : Option String
  loading : Bool
  deriving Repr, DecidableEq

/-- How the awaited `fetchYamlFromGitHub` call ended. -/
inductive FetchOutcome where
  | success (text : String)
  | failure (msg : String)
  deriving Repr, DecidableEq

/-- The continuation of `loadDoc` (App.jsx lines 34-49) after the await
resolves: each of the try / catch / finally updates is guarded by
`selectedIdRef.current === id`, where `current` is the selection at
resolution time. -/
def resolveFetch (st : ViewState) (inFlightId : String) (current : Option String)
    (outcome : FetchOutcome) : ViewState :=
  let afterTry :=
    match outcome with
    | .success t =>
      if current = some inFlightId then { st with fetchedYaml := some t } else st
    | .failure m =>
      if current = some inFlightId then
        { st with error := some m, fetchedYaml := none }
      else st
  if current = some inFlightId then { afterTry with loading := false } else afterTry

/-! ### Shared helper lemmas -/

/-- A string with a nonempty character list is not the empty string. -/
theorem ne_empty_of_data_ne_nil {s : String} (h : s.data ≠ []) : s ≠ "" := by
  intro h'
  exact h (by simp [h'])

/-- Appending cannot erase a nonempty left part. -/
theorem append_ne_empty_left (s t : String) (h : s ≠ "") : s ++ t ≠ "" := by
  apply ne_empty_of_data_ne_nil
  rw [String.data_append]
  intro hd
  rcases List.append_eq_nil.mp hd with ⟨h1, _⟩
  exact h (by cases s; simp_all)

/-- Dedup-key uniqueness: the stored keys are pairwise distinct. -/
def keysDistinct (docs : List DocEntry) : Prop :=
  (docs.map (fun d => d.normalized.key)).Nodup

/-! ### Claims about the doc list -/

/-- **C3.** For every doc list and every input URL whose normalized dedup
key equals the key of a record already in the list, Add rejects with an
error message and leaves the stored list unchanged. -/
theorem add_duplicate_rejected (docs : List DocEntry) (inputUrl inputName newId : String)
    (n : Normalized) (hparse : parseUrlStr inputUrl = some n)
    (d : DocEntry) (hd : d ∈ docs) (hkey : d.normalized.key = n.key) :
    handleAdd docs inputUrl inputName newId =
      ⟨docs, "This doc is already in the list.", none⟩ := by
  have hany : docs.any (fun d => d.normalized.key == n.key) = true :=
    List.any_eq_true.mpr ⟨d, hd, by simp [hkey]⟩
  unfold handleAdd
  rw [hparse]
  simp [hany]

/-- Witness for C3 at a concrete list and URL. -/
theorem add_duplicate_rejected_witness :
    handleAdd
      [{ id := "doc-1", name := none, label := "api.yaml",
         githubUrl := "https://github.com/octo/demo/blob/main/api.yaml",
         normalized := { owner := "octo", repo := "demo", branch := "main",
                         path := "api.yaml", key := "octo/demo/main/api.yaml" } }]
      "https://github.com/octo/demo/blob/main/api.yaml" "" "doc-2" =
      ⟨[{ id := "doc-1", name := none, label := "api.yaml",
          githubUrl := "https://github.com/octo/demo/blob/main/api.yaml",
          normalized := { owner := "octo", repo := "demo", branch := "main",
                          path := "api.yaml", key := "octo/demo/main/api.yaml" } }],
       "This doc is already in the list.", none⟩ :=
  add_duplicate_rejected _ _ "" "doc-2"
    { owner := "octo", repo := "demo", branch := "main",
      path := "api.yaml", key := "octo/demo/main/api.yaml" }
    (by decide) _ (List.mem_singleton.mpr rfl) rfl

/-- **C4.** Dedup-key uniqueness is an invariant: Add, Rename and Remove
all preserve pairwise-distinct normalized keys. -/
theorem keys_distinct_invariant (docs : List DocEntry)
    (inputUrl inputName newId id newName rid : String)
    (h : keysDistinct docs) :
    keysDistinct (handleAdd docs inputUrl inputName newId).docs ∧
    keysDistinct (handleRename docs id newName) ∧
    keysDistinct (handleRemove docs rid) := by
  refine ⟨?_, ?_, ?_⟩
  · unfold handleAdd
    cases hp : parseUrlStr inputUrl with
    | none => simpa using h
    | some n =>
      by_cases hdup : docs.any (fun d => d.normalized.key == n.key) = true
      · simp [hdup, h]
      · have hnot : ∀ d ∈ docs, d.normalized.key ≠ n.key := by
          intro d hd
          have := List.any_eq_false.mp (Bool.eq_false_iff.mpr hdup) d hd
          simpa using this
        have hdup' : (docs.any fun d => d.normalized.key == n.key) = false :=
          Bool.eq_false_iff.mpr hdup
        simp only [hdup', Bool.false_eq_true, if_false]
        unfold keysDistinct
        rw [List.map_append, List.nodup_append]
        refine ⟨h, List.nodup_singleton _, ?_⟩
        intro k hk hk'
        rcases List.mem_map.mp hk with ⟨d, hd, rfl⟩
        have hke : d.normalized.key = n.key := by simpa using hk'
        exact hnot d hd hke
  · unfold keysDistinct handleRename
    rw [List.map_map]
    have : List.map
        ((fun d => d.normalized.key) ∘
          fun d => if d.id == id then { d with name := trimOrNone newName } else d) docs =
        List.map (fun d => d.normalized.key) docs := by
      apply List.map_congr_left
      intro d _
      by_cases hid : d.id = id <;> simp [hid]
    rw [this]
    exact h
  · exact ((List.filter_sublist docs).map _).nodup h

/-- Witness for C4 at a concrete list. -/
theorem keys_distinct_invariant_witness :
    keysDistinct
      (handleAdd
        [{ id := "doc-1", name := none, label := "api.yaml",
           githubUrl := "u",
           normalized := { owner := "octo", repo := "demo", branch := "main",
                           path := "api.yaml", key := "octo/demo/main/api.yaml" } }]
        "https://github.com/octo/demo/blob/main/other.yaml" "" "doc-2").docs ∧
    keysDistinct
      (handleRename
        [{ id := "doc-1", name := none, label := "api.yaml",
           githubUrl := "u",
           normalized := { owner := "octo", repo := "demo", branch := "main",
                           path := "api.yaml", key := "octo/demo/main/api.yaml" } }]
        "doc-1" "My API") ∧
    keysDistinct
      (handleRemove
        [{ id := "doc-1", name := none, label := "api.yaml",
           githubUrl := "u",
           normalized := { owner := "octo", repo := "demo", branch := "main",
                           path := "api.yaml", key := "octo/demo/main/api.yaml" } }]
        "doc-1") :=
  keys_distinct_invariant _ _ "" "doc-2" "doc-1" "My API" "doc-1"
    (by unfold keysDistinct; decide)

/-- **C5.** Rename changes at most the `name` field of records whose id
matches (positionally, so order and length are preserved), and Remove
keeps exactly the records whose id differs, unchanged and in order. -/
theorem rename_remove_frame (docs : List DocEntry) (id newName rid : String) :
    List.Forall₂
      (fun d d' =>
        (d.id ≠ id → d' = d) ∧
        (d.id = id → d'.id = d.id ∧ d'.label = d.label ∧
          d'.githubUrl = d.githubUrl ∧ d'.normalized = d.normalized))
      docs (handleRename docs id newName) ∧
    (handleRemove docs rid).Sublist docs ∧
    (∀ d ∈ docs, d.id ≠ rid → d ∈ handleRemove docs rid) ∧
    (∀ d ∈ handleRemove docs rid, d.id ≠ rid) := by
  refine ⟨?_, List.filter_sublist docs, ?_, ?_⟩
  · unfold handleRename
    rw [List.forall₂_map_right_iff, List.forall₂_same]
    intro d _
    constructor
    · intro hne
      have : (d.id == id) = false := by simpa using hne
      simp [this]
    · intro heq
      simp [heq]
  · intro d hd hne
    unfold handleRemove
    simp [List.mem_filter, hd, hne]
  · intro d hd
    unfold handleRemove at hd
    exact of_decide_eq_true (List.mem_filter.mp hd).2

/-- Witness for C5 at a concrete list. -/
theorem rename_remove_frame_witness :
    List.Forall₂
      (fun d d' =>
        (d.id ≠ "doc-1" → d' = d) ∧
        (d.id = "doc-1" → d'.id = d.id ∧ d'.label = d.label ∧
          d'.githubUrl = d.githubUrl ∧ d'.normalized = d.normalized))
      [{ id := "doc-1", name := none, label := "l", githubUrl := "u",
         normalized := { owner := "o", repo := "r", branch := "b",
                         path := "p", key := "o/r/b/p" } }]
      (handleRename
        [{ id := "doc-1", name := none, label := "l", githubUrl := "u",
           normalized := { owner := "o", repo := "r", branch := "b",
                           path := "p", key := "o/r/b/p" } }] "doc-1" "New") ∧
    (handleRemove
        [{ id := "doc-1", name := none, label := "l", githubUrl := "u",
           normalized := { owner := "o", repo := "r", branch := "b",
                           path := "p", key := "o/r/b/p" } }] "doc-2").Sublist
      [{ id := "doc-1", name := none, label := "l", githubUrl := "u",
         normalized := { owner := "o", repo := "r", branch := "b",
                         path := "p", key := "o/r/b/p" } }] ∧
    (∀ d ∈ [{ id := "doc-1", name := none, label := "l", githubUrl := "u",
              normalized := { owner := "o", repo := "r", branch := "b",
                              path := "p", key := "o/r/b/p" } }],
      d.id ≠ "doc-2" →
        d ∈ handleRemove
          [{ id := "doc-1", name := none, label := "l", githubUrl := "u",
             normalized := { owner := "o", repo := "r", branch := "b",
                             path := "p", key := "o/r/b/p" } }] "doc-2") ∧
    (∀ d ∈ handleRemove
        [{ id := "doc-1", name := none, label := "l", githubUrl := "u",
           normalized := { owner := "o", repo := "r", branch := "b",
                           path := "p", key := "o/r/b/p" } }] "doc-2",
      d.id ≠ "doc-2") :=
  rename_remove_frame _ "doc-1" "New" "doc-2"

/-- **C9.** `loadDocs` and `loadToken` are total and never propagate
failures: every failure mode yields `[]` respectively `''`, and a valid
stored array (resp. string) is returned as-is. -/
theorem load_docs_token_total (jsonParse : String → JsonOutcome)
    (raw : String) (xs : List DocEntry) (s : String) :
    loadDocs .throws jsonParse = [] ∧
    loadDocs (.value none) jsonParse = [] ∧
    (jsonParse raw = .throws → loadDocs (.value (some raw)) jsonParse = []) ∧
    (jsonParse raw = .nonArray → loadDocs (.value (some raw)) jsonParse = []) ∧
    (raw ≠ "" → jsonParse raw = .array xs → loadDocs (.value (some raw)) jsonParse = xs) ∧
    loadToken .throws = "" ∧
    loadToken (.value none) = "" ∧
    loadToken (.value (some s)) = s := by
  refine ⟨rfl, rfl, ?_, ?_, ?_, rfl, rfl, rfl⟩
  · intro hp
    unfold loadDocs
    by_cases hr : raw = "" <;> simp [hr, hp]
  · intro hp
    unfold loadDocs
    by_cases hr : raw = "" <;> simp [hr, hp]
  · intro hr hp
    unfold loadDocs
    simp [hr, hp]

/-- Witness for C9 at a concrete oracle. -/
theorem load_docs_token_total_witness :
    loadDocs .throws (fun _ => .nonArray) = [] ∧
    loadDocs (.value none) (fun _ => .nonArray) = [] ∧
    ((fun (_ : String) => JsonOutcome.nonArray) "x" = .throws →
      loadDocs (.value (some "x")) (fun _ => .nonArray) = []) ∧
    ((fun (_ : String) => JsonOutcome.nonArray) "x" = .nonArray →
      loadDocs (.value (some "x")) (fun _ => .nonArray) = []) ∧
    ("x" ≠ "" → (fun (_ : String) => JsonOutcome.nonArray) "x" = .array [] →
      loadDocs (.value (some "x")) (fun _ => .nonArray) = []) ∧
    loadToken .throws = "" ∧
    loadToken (.value none) = "" ∧
    loadToken (.value (some "tok")) = "tok" :=
  load_docs_token_total (fun _ => .nonArray) "x" [] "tok"

/-- **C10.** Removing the selected doc moves the selection to the first
remaining record, or clears it when none remain; removing a non-selected
doc leaves the selection unchanged. -/
theorem remove_selection_spec (docs : List DocEntry) (selectedId : Option String)
    (id : String) :
    (selectedId = some id → handleRemove docs id = [] →
      removeSelection docs selectedId id = none) ∧
    (selectedId = some id → ∀ d rest, handleRemove docs id = d :: rest →
      removeSelection docs selectedId id = some d.id) ∧
    (selectedId ≠ some id → removeSelection docs selectedId id = selectedId) := by
  refine ⟨?_, ?_, ?_⟩
  · intro hsel hnil
    unfold removeSelection
    simp [hsel, hnil]
  · intro hsel d rest hcons
    unfold removeSelection
    simp [hsel, hcons]
  · intro hne
    unfold removeSelection
    simp [hne]

/-- Witness for C10 at a concrete list. -/
theorem remove_selection_spec_witness :
    ((some "doc-1" = some "doc-1") →
      handleRemove
        [{ id := "doc-1", name := none, label := "l", githubUrl := "u",
           normalized := { owner := "o", repo := "r", branch := "b",
                           path := "p", key := "o/r/b/p" } }] "doc-1" = [] →
      removeSelection
        [{ id := "doc-1", name := none, label := "l", githubUrl := "u",
           normalized := { owner := "o", repo := "r", branch := "b",
                           path := "p", key := "o/r/b/p" } }]
        (some "doc-1") "doc-1" = none) ∧
    ((some "doc-1" = some "doc-1") →
      ∀ d rest, handleRemove
        [{ id := "doc-1", name := none, label := "l", githubUrl := "u",
           normalized := { owner := "o", repo := "r", branch := "b",
                           path := "p", key := "o/r/b/p" } }] "doc-1" = d :: rest →
      removeSelection
        [{ id := "doc-1", name := none, label := "l", githubUrl := "u",
           normalized := { owner := "o", repo := "r", branch := "b",
                           path := "p", key := "o/r/b/p" } }]
        (some "doc-1") "doc-1" = some d.id) ∧
    ((some "doc-1" ≠ some "doc-1") →
      removeSelection
        [{ id := "doc-1", name := none, label := "l", githubUrl := "u",
           normalized := { owner := "o", repo := "r", branch := "b",
                           path := "p", key := "o/r/b/p" } }]
        (some "doc-1") "doc-1" = some "doc-1") :=
  remove_selection_spec _ (some "doc-1") "doc-1"

/-- **C7.** A resolving fetch updates the displayed YAML, the error and
the loading flag only when the in-flight id is still the selected id; a
stale response changes nothing. -/
theorem stale_response_guard (st : ViewState) (id : String) (current : Option String)
    (t m : String) :
    (∀ outcome, current ≠ some id → resolveFetch st id current outcome = st) ∧
    (current = some id →
      resolveFetch st id current (.success t) =
        { st with fetchedYaml := some t, loading := false }) ∧
    (current = some id →
      resolveFetch st id current (.failure m) =
        { st with error := some m, fetchedYaml := none, loading := false }) := by
  refine ⟨?_, ?_, ?_⟩
  · intro outcome hne
    unfold resolveFetch
    cases outcome <;> simp [hne]
  · intro heq
    unfold resolveFetch
    simp [heq]
  · intro heq
    unfold resolveFetch
    simp [heq]

/-- Witness for C7 at a concrete state. -/
theorem stale_response_guard_witness :
    (∀ outcome, (some "doc-2" : Option String) ≠ some "doc-1" →
      resolveFetch ⟨none, none, true⟩ "doc-1" (some "doc-2") outcome =
        ⟨none, none, true⟩) ∧
    ((some "doc-2" : Option String) = some "doc-1" →
      resolveFetch ⟨none, none, true⟩ "doc-1" (some "doc-2") (.success "y") =
        { fetchedYaml := some "y", error := none, loading := false }) ∧
    ((some "doc-2" : Option String) = some "doc-1" →
      resolveFetch ⟨none, none, true⟩ "doc-1" (some "doc-2") (.failure "e") =
        { fetchedYaml := none, error := some "e", loading := false }) :=
  stale_response_guard ⟨none, none, true⟩ "doc-1" (some "doc-2") "y" "e"

/-! ### Claims about the GitHub fetch routine -/

/-- The Git Data fallback issues the commit request first, then at most
the tree and blob requests, in order. -/
theorem fetchBlob_reqs (w : World) (p : String) :
    (fetchBlobByCommit w p).1 = [.gitCommit] ∨
    (fetchBlobByCommit w p).1 = [.gitCommit, .gitTree] ∨
    (fetchBlobByCommit w p).1 = [.gitCommit, .gitTree, .gitBlob] := by
  unfold fetchBlobByCommit
  repeat' split
  all_goals simp

/-- The Git Data fallback either returns the blob text or throws a
non-empty message. -/
theorem fetchBlob_result (w : World) (p : String) :
    (∃ e, (fetchBlobByCommit w p).2 = .error e ∧ e ≠ "") ∨
    (fetchBlobByCommit w p).2 = .ok w.blobText := by
  unfold fetchBlobByCommit
  repeat' split
  all_goals
    first
    | (right; rfl)
    | (left; refine ⟨_, rfl, ?_⟩; first | decide | (repeat apply append_ne_empty_left); decide)

/-- On a non-success, non-404 Contents status the only request issued is
the contents request. -/
theorem fetchYaml_no404_reqs (w : World) (n : Normalized) (token : Bool)
    (hok : statusOk w.contentsStatus = false) (h4 : w.contentsStatus ≠ 404) :
    (fetchYamlFromGitHub w n token).1 = [.contents] := by
  unfold fetchYamlFromGitHub
  simp only [hok, Bool.false_eq_true, if_false]
  have hcond : (decide (w.contentsStatus = 404) && isCommitSha n.branch) = false := by
    simp [h4]
  rw [hcond]
  simp only [Bool.false_eq_true, if_false]
  rw [if_neg h4]
  repeat' split
  all_goals rfl

/-- On a non-success, non-404 Contents status the routine throws a
non-empty message. -/
theorem fetchYaml_no404_error (w : World) (n : Normalized) (token : Bool)
    (hok : statusOk w.contentsStatus = false) (h4 : w.contentsStatus ≠ 404) :
    ∃ e, (fetchYamlFromGitHub w n token).2 = .error e ∧ e ≠ "" := by
  unfold fetchYamlFromGitHub
  simp only [hok, Bool.false_eq_true, if_false]
  have hcond : (decide (w.contentsStatus = 404) && isCommitSha n.branch) = false := by
    simp [h4]
  rw [hcond]
  simp only [Bool.false_eq_true, if_false]
  rw [if_neg h4]
  repeat' split
  all_goals refine ⟨_, rfl, ?_⟩
  all_goals
    first
    | decide
    | ((repeat apply append_ne_empty_left); decide)

/-- **C1.** The routine always issues exactly one Contents-API request
first, and touches the Git Data API if and only if that request returned
404 and the ref is a 40-hex commit SHA. -/
theorem contents_first_fallback_iff (w : World) (n : Normalized) (token : Bool) :
    (fetchYamlFromGitHub w n token).1.head? = some .contents ∧
    (fetchYamlFromGitHub w n token).1.count .contents = 1 ∧
    ((Req.gitCommit ∈ (fetchYamlFromGitHub w n token).1 ∨
      Req.gitTree ∈ (fetchYamlFromGitHub w n token).1 ∨
      Req.gitBlob ∈ (fetchYamlFromGitHub w n token).1) ↔
      (w.contentsStatus = 404 ∧ isCommitSha n.branch = true)) := by
  have hs404 : statusOk 404 = false := by decide
  by_cases hok : statusOk w.contentsStatus = true
  · have h404 : w.contentsStatus ≠ 404 := by
      intro h
      rw [h] at hok
      exact absurd hok (by decide)
    have hreq : (fetchYamlFromGitHub w n token).1 = [.contents] := by
      unfold fetchYamlFromGitHub
      simp [hok]
    rw [hreq]
    simp [h404]
  · have hok' : statusOk w.contentsStatus = false := Bool.eq_false_iff.mpr hok
    by_cases h4 : w.contentsStatus = 404
    · by_cases hsha : isCommitSha n.branch = true
      · rcases hfb : fetchBlobByCommit w n.path with ⟨reqs, res⟩
        have hreq : (fetchYamlFromGitHub w n token).1 = .contents :: reqs := by
          unfold fetchYamlFromGitHub
          simp [h4, hs404, hsha, hfb]
        have hcases := fetchBlob_reqs w n.path
        rw [hfb] at hcases
        rw [hreq]
        rcases hcases with h | h | h <;> simp_all
      · have hsha' : isCommitSha n.branch = false := Bool.eq_false_iff.mpr hsha
        have hreq : (fetchYamlFromGitHub w n token).1 = [.contents] := by
          unfold fetchYamlFromGitHub
          simp [h4, hs404, hsha']
        rw [hreq]
        simp [hsha']
    · rw [fetchYaml_no404_reqs w n token hok' h4]
      simp [h4]

/-- **C6.** On any non-success Contents response the routine either
throws a non-empty message or (only there) succeeds through the 404 +
commit-SHA fallback; the failed request is never re-issued; and a 403
body mentioning a rate limit yields the rate-limit message. -/
theorem fetch_failure_message (w : World) (n : Normalized) (token : Bool)
    (hfail : statusOk w.contentsStatus = false) :
    ((∃ e, (fetchYamlFromGitHub w n token).2 = .error e ∧ e ≠ "") ∨
      (w.contentsStatus = 404 ∧ isCommitSha n.branch = true ∧
        (fetchYamlFromGitHub w n token).2 = .ok w.blobText)) ∧
    (fetchYamlFromGitHub w n token).1.count .contents = 1 ∧
    (w.contentsStatus = 403 →
      ∀ m, w.contentsJsonMessage = some m → m ≠ "" → mentionsRateLimit m = true →
        (fetchYamlFromGitHub w n token).2 =
          .error "GitHub rate limit exceeded. Try again later or add a token.") := by
  have hs404 : statusOk 404 = false := by decide
  have hcount : (fetchYamlFromGitHub w n token).1.count .contents = 1 := by
    by_cases h4 : w.contentsStatus = 404
    · by_cases hsha : isCommitSha n.branch = true
      · rcases hfb : fetchBlobByCommit w n.path with ⟨reqs, res⟩
        have hreq : (fetchYamlFromGitHub w n token).1 = .contents :: reqs := by
          unfold fetchYamlFromGitHub
          simp [h4, hs404, hsha, hfb]
        have hcases := fetchBlob_reqs w n.path
        rw [hfb] at hcases
        rw [hreq]
        rcases hcases with h | h | h <;> simp_all
      · have hsha' : isCommitSha n.branch = false := Bool.eq_false_iff.mpr hsha
        have hreq : (fetchYamlFromGitHub w n token).1 = [.contents] := by
          unfold fetchYamlFromGitHub
          simp [h4, hs404, hsha']
        rw [hreq]
        decide
    · rw [fetchYaml_no404_reqs w n token hfail h4]
      decide
  refine ⟨?_, hcount, ?_⟩
  · by_cases h4 : w.contentsStatus = 404
    · by_cases hsha : isCommitSha n.branch = true
      · rcases hfb : fetchBlobByCommit w n.path with ⟨reqs, res⟩
        have hres : (fetchYamlFromGitHub w n token).2 = res := by
          unfold fetchYamlFromGitHub
          simp [h4, hs404, hsha, hfb]
        have hcases := fetchBlob_result w n.path
        rw [hfb] at hcases
        rcases hcases with ⟨e, he, hne⟩ | h
        · exact Or.inl ⟨e, by rw [hres]; exact he, hne⟩
        · exact Or.inr ⟨h4, hsha, by rw [hres]; exact h⟩
      · have hsha' : isCommitSha n.branch = false := Bool.eq_false_iff.mpr hsha
        have hres : (fetchYamlFromGitHub w n token).2 =
            .error ("File not found. Requested: " ++ n.owner ++ "/" ++ n.repo ++
              " @ " ++ n.branch ++ " → " ++ n.path ++ " — " ++
              (if token then
                "Check that the URL is correct and your token has the \"repo\" scope (for private repos)."
              else
                "If this is a private repo, add a GitHub token in Settings (with \"repo\" scope).")) := by
          unfold fetchYamlFromGitHub
          simp [h4, hs404, hsha']
        refine Or.inl ⟨_, hres, ?_⟩
        repeat apply append_ne_empty_left
        decide
    · exact Or.inl (fetchYaml_no404_error w n token hfail h4)
  · intro h403 m hm hmne hrate
    have h4 : w.contentsStatus ≠ 404 := by rw [h403]; decide
    have hs403 : statusOk 403 = false := by decide
    unfold fetchYamlFromGitHub
    simp [hfail, h4, h403, hm, hmne, hrate, hs403]

/-- Witness for C6 at a concrete 403 rate-limited world. -/
theorem fetch_failure_message_witness :
    statusOk 403 = false ∧
    (((∃ e, (fetchYamlFromGitHub
        { contentsStatus := 403, contentsStatusText := "Forbidden",
          contentsText := "", contentsJsonMessage := some "API rate limit exceeded",
          commitStatus := 0, commitTreeSha := none, treeStatus := 0,
          treeTruncated := false, treeEntries := none, blobStatus := 0, blobText := "" }
        { owner := "o", repo := "r", branch := "main", path := "p", key := "o/r/main/p" }
        false).2 = .error e ∧ e ≠ "") ∨
      ((403 : Nat) = 404 ∧ isCommitSha "main" = true ∧
        (fetchYamlFromGitHub
          { contentsStatus := 403, contentsStatusText := "Forbidden",
            contentsText := "", contentsJsonMessage := some "API rate limit exceeded",
            commitStatus := 0, commitTreeSha := none, treeStatus := 0,
            treeTruncated := false, treeEntries := none, blobStatus := 0, blobText := "" }
          { owner := "o", repo := "r", branch := "main", path := "p", key := "o/r/main/p" }
          false).2 = .ok "")) ∧
    (fetchYamlFromGitHub
        { contentsStatus := 403, contentsStatusText := "Forbidden",
          contentsText := "", contentsJsonMessage := some "API rate limit exceeded",
          commitStatus := 0, commitTreeSha := none, treeStatus := 0,
          treeTruncated := false, treeEntries := none, blobStatus := 0, blobText := "" }
        { owner := "o", repo := "r", branch := "main", path := "p", key := "o/r/main/p" }
        false).1.count .contents = 1 ∧
    ((403 : Nat) = 403 →
      ∀ m, (some "API rate limit exceeded" : Option String) = some m → m ≠ "" →
        mentionsRateLimit m = true →
        (fetchYamlFromGitHub
          { contentsStatus := 403, contentsStatusText := "Forbidden",
            contentsText := "", contentsJsonMessage := some "API rate limit exceeded",
            commitStatus := 0, commitTreeSha := none, treeStatus := 0,
            treeTruncated := false, treeEntries := none, blobStatus := 0, blobText := "" }
          { owner := "o", repo := "r", branch := "main", path := "p", key := "o/r/main/p" }
          false).2 =
            .error "GitHub rate limit exceeded. Try again later or add a token.")) :=
  ⟨by decide,
   fetch_failure_message
     { contentsStatus := 403, contentsStatusText := "Forbidden",
       contentsText := "", contentsJsonMessage := some "API rate limit exceeded",
       commitStatus := 0, commitTreeSha := none, treeStatus := 0,
       treeTruncated := false, treeEntries := none, blobStatus := 0, blobText := "" }
     { owner := "o", repo := "r", branch := "main", path := "p", key := "o/r/main/p" }
     false (by decide)⟩

/-! ### Claims about URL parsing: shape of the returned record -/

/-- Has the string two consecutive slashes nowhere? -/
def noDoubleSlash : List Char → Bool
  | [] => true
  | [_] => true
  | a :: b :: cs => !(a = '/' && b = '/') && noDoubleSlash (b :: cs)

/-- Unfolding equation for `collapseSlashes` on two-element fronts. -/
theorem collapseSlashes_cons_cons (a b : Char) (cs : List Char) :
    collapseSlashes (a :: b :: cs) =
      if a = '/' && b = '/' then collapseSlashes (b :: cs)
      else a :: collapseSlashes (b :: cs) := rfl

/-- Unfolding equation for `noDoubleSlash` on two-element fronts. -/
theorem noDoubleSlash_cons_cons (a b : Char) (cs : List Char) :
    noDoubleSlash (a :: b :: cs) =
      (!(a = '/' && b = '/') && noDoubleSlash (b :: cs)) := rfl

/-- Collapsing preserves the head of the list. -/
theorem collapseSlashes_head (cs : List Char) :
    ∀ b : Char, ∃ t, collapseSlashes (b :: cs) = b :: t := by
  induction cs with
  | nil => exact fun b => ⟨[], rfl⟩
  | cons c cs' ih =>
    intro b
    rw [collapseSlashes_cons_cons]
    by_cases hcond : (b = '/' && c = '/') = true
    · rcases ih c with ⟨t, ht⟩
      have hbc : b = '/' ∧ c = '/' := by simpa using hcond
      rw [if_pos hcond, ht, hbc.1, hbc.2]
      exact ⟨t, rfl⟩
    · rw [if_neg hcond]
      exact ⟨collapseSlashes (c :: cs'), rfl⟩

/-- A collapsed list has no two consecutive slashes. -/
theorem noDoubleSlash_collapse (l : List Char) :
    noDoubleSlash (collapseSlashes l) = true := by
  induction l with
  | nil => rfl
  | cons a t ih =>
    cases t with
    | nil => rfl
    | cons b t' =>
      rw [collapseSlashes_cons_cons]
      by_cases hcond : (a = '/' && b = '/') = true
      · rw [if_pos hcond]
        exact ih
      · rw [if_neg hcond]
        rcases collapseSlashes_head t' b with ⟨t₂, ht₂⟩
        rw [ht₂]
        rw [noDoubleSlash_cons_cons]
        rw [← ht₂, ih]
        simp [Bool.eq_false_iff.mpr hcond]

/-- Collapsing identifies a double slash with a single one, anywhere. -/
theorem collapse_dedup (t : List Char) :
    ∀ X : List Char,
      collapseSlashes (X ++ '/' :: '/' :: t) = collapseSlashes (X ++ '/' :: t) := by
  intro X
  induction X with
  | nil => simp [collapseSlashes_cons_cons]
  | cons a X' ih =>
    cases X' with
    | nil =>
      simp only [List.cons_append, List.nil_append]
      by_cases ha : a = '/'
      · subst ha
        simp [collapseSlashes_cons_cons]
      · simp [collapseSlashes_cons_cons, ha]
    | cons x xs =>
      simp only [List.cons_append] at ih ⊢
      rw [collapseSlashes_cons_cons, ih, ← collapseSlashes_cons_cons]

/-- The key may be computed from the stripped path: removing one leading
slash of the final capture does not change the collapsed key. -/
theorem collapse_stripOne (Y p : List Char) :
    collapseSlashes (Y ++ '/' :: stripOneSlash p) = collapseSlashes (Y ++ '/' :: p) := by
  cases p with
  | nil => rfl
  | cons c t =>
    by_cases hc : c = '/'
    · subst hc
      show collapseSlashes (Y ++ '/' :: stripOneSlash ('/' :: t)) = _
      have hstrip : stripOneSlash ('/' :: t) = t := by simp [stripOneSlash]
      rw [hstrip]
      exact (collapse_dedup t Y).symm
    · have hstrip : stripOneSlash (c :: t) = c :: t := by simp [stripOneSlash, hc]
      rw [hstrip]

/-- A successful `splitSeg` yields a nonempty, slash-free segment. -/
theorem splitSeg_shape {cs seg rest : List Char}
    (h : splitSeg cs = some (seg, rest)) : seg ≠ [] ∧ '/' ∉ seg := by
  unfold splitSeg at h
  rcases htake : cs.takeWhile (fun c => c ≠ '/') with _ | ⟨a, t⟩ <;>
    rcases hdrop : cs.dropWhile (fun c => c ≠ '/') with _ | ⟨b, u⟩ <;>
      rw [htake, hdrop] at h <;> simp at h
  rcases h with ⟨hseg, _⟩
  constructor
  · rw [← hseg]
    simp
  · intro hmem
    rw [← hseg] at hmem
    have := List.mem_takeWhile_imp (htake ▸ hmem)
    simp at this

/-- A successful `matchSegs` yields nonempty slash-free owner, repo and
branch, and a nonempty raw path capture. -/
theorem matchSegs_shape {cs o r b p : List Char}
    (h : matchSegs cs = some (o, r, b, p)) :
    o ≠ [] ∧ '/' ∉ o ∧ r ≠ [] ∧ '/' ∉ r ∧ b ≠ [] ∧ '/' ∉ b ∧ p ≠ [] := by
  unfold matchSegs at h
  split at h
  · exact absurd h (by simp)
  rename_i o' r1 h1
  split at h
  · exact absurd h (by simp)
  rename_i r' r2 h2
  split at h
  · exact absurd h (by simp)
  rename_i b' r3 h3
  split at h
  · exact absurd h (by simp)
  rename_i hcond
  simp only [Option.some.injEq, Prod.mk.injEq] at h
  obtain ⟨rfl, rfl, rfl, rfl⟩ := h
  refine ⟨(splitSeg_shape h1).1, (splitSeg_shape h1).2,
    (splitSeg_shape h2).1, (splitSeg_shape h2).2,
    (splitSeg_shape h3).1, (splitSeg_shape h3).2, ?_⟩
  intro hnil
  exact hcond (by simp [hnil])

/-- A successful `rawSegs` is `mkNormalized` of well-shaped captures. -/
theorem rawSegs_shape {cs : List Char} {n : Normalized}
    (h : rawSegs cs = some n) :
    ∃ o r b p, n = mkNormalized o r b p ∧ o ≠ [] ∧ '/' ∉ o ∧
      r ≠ [] ∧ '/' ∉ r ∧ b ≠ [] ∧ '/' ∉ b ∧ p ≠ [] := by
  unfold rawSegs at h
  split at h
  · exact absurd h (by simp)
  rename_i o r b p h3
  simp only [Option.some.injEq] at h
  rcases matchSegs_shape h3 with ⟨ho1, ho2, hr1, hr2, hb1, hb2, hp⟩
  exact ⟨o, r, b, p, h.symm, ho1, ho2, hr1, hr2, hb1, hb2, hp⟩

/-- A successful raw-URL match is `mkNormalized` of well-shaped captures. -/
theorem matchRaw_shape {cs : List Char} {n : Normalized}
    (h : matchRaw cs = some n) :
    ∃ o r b p, n = mkNormalized o r b p ∧ o ≠ [] ∧ '/' ∉ o ∧
      r ≠ [] ∧ '/' ∉ r ∧ b ≠ [] ∧ '/' ∉ b ∧ p ≠ [] := by
  unfold matchRaw at h
  split at h
  · exact absurd h (by simp)
  rename_i s1 h1
  split at h
  · exact absurd h (by simp)
  exact rawSegs_shape h

/-- A successful `blobSegs` is `mkNormalized` of well-shaped captures. -/
theorem blobSegs_shape {cs : List Char} {n : Normalized}
    (h : blobSegs cs = some n) :
    ∃ o r b p, n = mkNormalized o r b p ∧ o ≠ [] ∧ '/' ∉ o ∧
      r ≠ [] ∧ '/' ∉ r ∧ b ≠ [] ∧ '/' ∉ b ∧ p ≠ [] := by
  unfold blobSegs at h
  split at h
  · exact absurd h (by simp)
  rename_i o r1 h4
  split at h
  · exact absurd h (by simp)
  rename_i r r2 h5
  split at h
  · exact absurd h (by simp)
  rename_i bl r3 h6
  split at h
  · split at h
    · exact absurd h (by simp)
    rename_i b r4 h7
    split at h
    · exact absurd h (by simp)
    rename_i hcond
    simp only [Option.some.injEq] at h
    have hr4 : r4 ≠ [] := by
      intro hnil
      exact hcond (by simp [hnil])
    rcases splitSeg_shape h4 with ⟨ho1, ho2⟩
    rcases splitSeg_shape h5 with ⟨hr1, hr2⟩
    rcases splitSeg_shape h7 with ⟨hb1, hb2⟩
    exact ⟨o, r, b, r4, h.symm, ho1, ho2, hr1, hr2, hb1, hb2, hr4⟩
  · exact absurd h (by simp)

/-- A successful blob-URL match is `mkNormalized` of well-shaped captures. -/
theorem matchBlob_shape {cs : List Char} {n : Normalized}
    (h : matchBlob cs = some n) :
    ∃ o r b p, n = mkNormalized o r b p ∧ o ≠ [] ∧ '/' ∉ o ∧
      r ≠ [] ∧ '/' ∉ r ∧ b ≠ [] ∧ '/' ∉ b ∧ p ≠ [] := by
  unfold matchBlob at h
  split at h
  · exact absurd h (by simp)
  rename_i s1 h1
  split at h
  · exact absurd h (by simp)
  exact blobSegs_shape h

/-- A successful `parseList` is a successful raw or blob match. -/
theorem parseList_shape {cs : List Char} {rec : Normalized}
    (h : parseList cs = some rec) :
    ∃ o r b p, rec = mkNormalized o r b p ∧ o ≠ [] ∧ '/' ∉ o ∧
      r ≠ [] ∧ '/' ∉ r ∧ b ≠ [] ∧ '/' ∉ b ∧ p ≠ [] := by
  unfold parseList at h
  generalize urlNormalize (jsTrimL cs) = t at h
  rcases hm : matchRaw t with _ | n' <;> rw [hm] at h
  · change matchBlob t = some rec at h
    exact matchBlob_shape h
  · change some n' = some rec at h
    simp only [Option.some.injEq] at h
    subst h
    exact matchRaw_shape hm

/-- **C8 (amended).** `parseGitHubUrl` is total (by type) and whenever it
returns a record, owner, repo and branch are non-empty and slash-free,
and the key is `owner/repo/branch/path` with every slash run collapsed
(so the key itself has no `//`).  The original claim's conditions on the
path (non-empty, no leading slash) do not hold — see the
counterexample — and are dropped. -/
theorem parse_record_shape (inp : JsInput) (rec : Normalized)
    (h : parseGitHubUrl inp = some rec) :
    rec.owner ≠ "" ∧ '/' ∉ rec.owner.data ∧
    rec.repo ≠ "" ∧ '/' ∉ rec.repo.data ∧
    rec.branch ≠ "" ∧ '/' ∉ rec.branch.data ∧
    rec.key.data =
      collapseSlashes (rec.owner.data ++ '/' :: rec.repo.data ++
        '/' :: rec.branch.data ++ '/' :: rec.path.data) ∧
    noDoubleSlash rec.key.data = true := by
  have hex : ∃ o r b p, rec = mkNormalized o r b p ∧ o ≠ [] ∧ '/' ∉ o ∧
      r ≠ [] ∧ '/' ∉ r ∧ b ≠ [] ∧ '/' ∉ b ∧ p ≠ [] := by
    cases inp with
    | nonString => simp [parseGitHubUrl] at h
    | str s =>
      rw [show parseGitHubUrl (.str s) =
        (if s = "" then none else parseList s.data) from rfl] at h
      by_cases hs : s = ""
      · rw [if_pos hs] at h
        exact absurd h (by simp)
      · rw [if_neg hs] at h
        exact parseList_shape h
  rcases hex with ⟨o, r, b, p, rfl, ho1, ho2, hr1, hr2, hb1, hb2, _⟩
  refine ⟨?_, ?_, ?_, ?_, ?_, ?_, ?_, ?_⟩
  · exact ne_empty_of_data_ne_nil (by simpa using ho1)
  · simpa using ho2
  · exact ne_empty_of_data_ne_nil (by simpa using hr1)
  · simpa using hr2
  · exact ne_empty_of_data_ne_nil (by simpa using hb1)
  · simpa using hb2
  · show collapseSlashes (o ++ '/' :: r ++ '/' :: b ++ '/' :: p) =
      collapseSlashes (o ++ '/' :: r ++ '/' :: b ++ '/' :: stripOneSlash p)
    have hkey := collapse_stripOne (o ++ '/' :: r ++ '/' :: b) p
    simp only [List.cons_append, List.append_assoc, List.nil_append] at hkey ⊢
    exact hkey.symm
  · show noDoubleSlash (collapseSlashes (o ++ '/' :: r ++ '/' :: b ++ '/' :: p)) = true
    exact noDoubleSlash_collapse _

/-- Witness for the amended C8 at a concrete blob URL. -/
theorem parse_record_shape_witness :
    parseGitHubUrl (.str "https://github.com/o/r/blob/b/p.yaml") =
      some { owner := "o", repo := "r", branch := "b",
             path := "p.yaml", key := "o/r/b/p.yaml" } ∧
    (({ owner := "o", repo := "r", branch := "b",
        path := "p.yaml", key := "o/r/b/p.yaml" } : Normalized).owner ≠ "" ∧
     '/' ∉ ("o" : String).data ∧
     ({ owner := "o", repo := "r", branch := "b",
        path := "p.yaml", key := "o/r/b/p.yaml" } : Normalized).repo ≠ "" ∧
     '/' ∉ ("r" : String).data ∧
     ({ owner := "o", repo := "r", branch := "b",
        path := "p.yaml", key := "o/r/b/p.yaml" } : Normalized).branch ≠ "" ∧
     '/' ∉ ("b" : String).data ∧
     ("o/r/b/p.yaml" : String).data =
       collapseSlashes (("o" : String).data ++ '/' :: ("r" : String).data ++
         '/' :: ("b" : String).data ++ '/' :: ("p.yaml" : String).data) ∧
     noDoubleSlash ("o/r/b/p.yaml" : String).data = true) :=
  ⟨by decide,
   parse_record_shape (.str "https://github.com/o/r/blob/b/p.yaml")
     { owner := "o", repo := "r", branch := "b",
       path := "p.yaml", key := "o/r/b/p.yaml" } (by decide)⟩

/-- **C8 (counterexample).** With consecutive slashes after the branch,
the returned path can be empty, or can keep a leading slash: the original
claim's "path is non-empty with no leading '/'" is false. -/
theorem parse_path_shape_counterexample :
    parseUrlStr "https://raw.githubusercontent.com/o/r/b//" =
      some { owner := "o", repo := "r", branch := "b",
             path := "", key := "o/r/b/" } ∧
    parseUrlStr "https://raw.githubusercontent.com/o/r/b///p" =
      some { owner := "o", repo := "r", branch := "b",
             path := "/p", key := "o/r/b/p" } := by
  constructor <;> decide

/-! ### C2: blob-form and raw-form URLs parse to the same tuple -/

/-- `dropWhile` passes over an appended tail whose head fails the
predicate. -/
theorem dropWhile_append_cons (P : Char → Bool) (u : List Char) (x : Char)
    (xs : List Char) (hx : P x = false) :
    (u ++ x :: xs).dropWhile P = u.dropWhile P ++ x :: xs := by
  induction u with
  | nil => simp [List.dropWhile_cons, hx]
  | cons a u' ih =>
    by_cases ha : P a = true <;> simp [List.dropWhile_cons, ha, ih]

/-- `takeWhile` passes over a fully satisfying prefix. -/
theorem takeWhile_append_all (P : Char → Bool) {u : List Char} (v : List Char)
    (hu : u.all P = true) :
    (u ++ v).takeWhile P = u ++ v.takeWhile P := by
  induction u with
  | nil => simp
  | cons a u' ih =>
    simp only [List.all_cons, Bool.and_eq_true] at hu
    simp [List.takeWhile_cons_of_pos hu.1, ih hu.2]

/-- `takeWhile` stops inside a prefix containing a failing element. -/
theorem takeWhile_append_stop (P : Char → Bool) {u : List Char} (v : List Char)
    (hu : u.all P = false) :
    (u ++ v).takeWhile P = u.takeWhile P := by
  induction u with
  | nil => simp at hu
  | cons a u' ih =>
    by_cases ha : P a = true
    · have hu' : u'.all P = false := by
        cases hau : u'.all P
        · rfl
        · rw [List.all_cons, ha, hau] at hu
          simp at hu
      simp [List.takeWhile_cons_of_pos ha, ih hu']
    · have ha' : P a = false := Bool.eq_false_iff.mpr ha
      simp [List.takeWhile_cons, ha']

/-- An element absent from a list is absent from any `takeWhile` of it. -/
theorem not_mem_takeWhile {c : Char} {l : List Char} (P : Char → Bool)
    (h : c ∉ l) : c ∉ l.takeWhile P :=
  fun hm => h ((List.takeWhile_sublist P).subset hm)

/-- The right-trim half of `jsTrim`. -/
def trimRightL (cs : List Char) : List Char :=
  (cs.reverse.dropWhile isJsWs).reverse

/-- `jsTrim` of a string whose head is non-whitespace and whose last
character before the tail is a slash trims only inside the tail. -/
theorem jsTrim_concat (c : Char) (u pd : List Char) (hc : isJsWs c = false) :
    jsTrimL ((c :: u) ++ '/' :: pd) = (c :: u) ++ '/' :: trimRightL pd := by
  unfold jsTrimL trimRightL
  rw [List.cons_append, List.dropWhile_cons, hc]
  simp only [Bool.false_eq_true, if_false]
  rw [← List.cons_append, List.reverse_append, List.reverse_cons, List.append_assoc,
    List.singleton_append,
    dropWhile_append_cons isJsWs pd.reverse '/' _ (by decide),
    List.reverse_append, List.reverse_cons, List.reverse_reverse, List.append_assoc,
    List.singleton_append]

/-- `splitSeg` on a nonempty slash-free segment followed by a slash. -/
theorem splitSeg_append {o : List Char} (v : List Char)
    (ho : '/' ∉ o) (hne : o ≠ []) :
    splitSeg (o ++ '/' :: v) = some (o, v) := by
  have hall : ∀ x ∈ o, (fun c => decide (c ≠ '/')) x = true := by
    intro x hx
    simp only [decide_eq_true_eq]
    intro hx'
    exact ho (hx' ▸ hx)
  have ht : (o ++ '/' :: v).takeWhile (fun c => c ≠ '/') = o := by
    have := takeWhile_append_all (fun c => decide (c ≠ '/')) ('/' :: v)
      (List.all_eq_true.mpr hall)
    simpa [List.takeWhile_cons] using this
  have hd : (o ++ '/' :: v).dropWhile (fun c => c ≠ '/') = '/' :: v := by
    have hdo : o.dropWhile (fun c => decide (c ≠ '/')) = [] :=
      List.dropWhile_eq_nil_iff.mpr hall
    have := dropWhile_append_cons (fun c => decide (c ≠ '/')) o '/' v (by simp)
    rw [hdo] at this
    simpa using this
  unfold splitSeg
  rw [ht, hd]
  cases o with
  | nil => exact absurd rfl hne
  | cons a o' => rfl

/-- `splitSeg` fails on a slash-free string (no separator to find). -/
theorem splitSeg_none {cs : List Char} (h : '/' ∉ cs) : splitSeg cs = none := by
  have hall : ∀ x ∈ cs, (fun c => decide (c ≠ '/')) x = true := by
    intro x hx
    simp only [decide_eq_true_eq]
    intro hx'
    exact h (hx' ▸ hx)
  have hd : cs.dropWhile (fun c => c ≠ '/') = [] :=
    List.dropWhile_eq_nil_iff.mpr hall
  unfold splitSeg
  rw [hd]
  cases htw : cs.takeWhile (fun c => c ≠ '/') <;> rfl

/-- `splitSeg` fails on a leading slash (empty first segment). -/
theorem splitSeg_slash (v : List Char) : splitSeg ('/' :: v) = none := rfl

/-- `splitSeg` consumes the literal `blob` segment. -/
theorem splitSeg_blob (v : List Char) :
    splitSeg ('b' :: 'l' :: 'o' :: 'b' :: '/' :: v) = some (['b', 'l', 'o', 'b'], v) := rfl

/-- A case-insensitive literal always drops itself. -/
theorem dropCaseLit_self (u : List Char) : ∀ v, dropCaseLit u (u ++ v) = some v := by
  induction u with
  | nil => intro v; rfl
  | cons a u' ih => intro v; simp [dropCaseLit, ih]

/-- The `http://` literal does not match an `https://` string. -/
theorem dropCaseLit_http_https (v : List Char) :
    dropCaseLit "http://".data ("https://".data ++ v) = none := rfl

/-- The raw host literal does not match a `github.com/` string. -/
theorem dropCaseLit_raw_github (v : List Char) :
    dropCaseLit "raw.githubusercontent.com/".data ("github.com/".data ++ v) = none := rfl

/-- The `github.com/` literal does not match a raw-host string. -/
theorem dropCaseLit_github_raw (v : List Char) :
    dropCaseLit "github.com/".data ("raw.githubusercontent.com/".data ++ v) = none := rfl

/-- The `www.` literal does not match a `github.com/` string. -/
theorem dropCaseLit_www_github (v : List Char) :
    dropCaseLit "www.".data ("github.com/".data ++ v) = none := rfl

/-- The `www.` literal does not match a raw-host string. -/
theorem dropCaseLit_www_raw (v : List Char) :
    dropCaseLit "www.".data ("raw.githubusercontent.com/".data ++ v) = none := rfl

/-- An `https://` string is recognised as a URL by the normalizer. -/
theorem startsHttp_https (v : List Char) :
    startsHttp ("https://".data ++ v) = true := rfl

/-- On an `https://` string the normalizer strips at the first `?`/`#`
and normalizes backslashes in the remainder. -/
theorem urlNormalize_https (v : List Char) :
    urlNormalize ("https://".data ++ v) =
      "https://".data ++ mapSlash (v.takeWhile (fun c => !isQueryHash c)) := rfl

/-- The scheme part strips from an `https://` string. -/
theorem schemeDrop_https (v : List Char) :
    schemeDrop ("https://".data ++ v) = some v := rfl

/-- `matchRaw` on a raw-host string runs the segment matcher. -/
theorem matchRaw_host (v : List Char) :
    matchRaw ("https://".data ++ ("raw.githubusercontent.com/".data ++ v)) =
      rawSegs v := rfl

/-- `matchRaw` rejects a `github.com` string at the host literal. -/
theorem matchRaw_hostblob (v : List Char) :
    matchRaw ("https://".data ++ ("github.com/".data ++ v)) = none := rfl

/-- `matchBlob` on a `github.com` string runs the segment matcher. -/
theorem matchBlob_host (v : List Char) :
    matchBlob ("https://".data ++ ("github.com/".data ++ v)) = blobSegs v := rfl

/-- `matchBlob` rejects a raw-host string at the host literal. -/
theorem matchBlob_hostraw (v : List Char) :
    matchBlob ("https://".data ++ ("raw.githubusercontent.com/".data ++ v)) = none := rfl

/-- `parseList` on a string normalizing to a raw-host URL is `rawSegs`. -/
theorem parseList_eval_raw (cs v : List Char)
    (hnorm : urlNormalize (jsTrimL cs) =
      "https://".data ++ ("raw.githubusercontent.com/".data ++ v)) :
    parseList cs = rawSegs v := by
  unfold parseList
  rw [hnorm, matchRaw_host, matchBlob_hostraw]
  cases rawSegs v <;> rfl

/-- `parseList` on a string normalizing to a `github.com` URL is
`blobSegs`. -/
theorem parseList_eval_blob (cs v : List Char)
    (hnorm : urlNormalize (jsTrimL cs) =
      "https://".data ++ ("github.com/".data ++ v)) :
    parseList cs = blobSegs v := by
  unfold parseList
  rw [hnorm, matchRaw_hostblob, matchBlob_host]

/-- `parseGitHubUrl` on a nonempty string is `parseList`. -/
theorem parseUrlStr_ne (s : String) (h : s ≠ "") :
    parseUrlStr s = parseList s.data := by
  show (if s = "" then none else parseList s.data) = parseList s.data
  rw [if_neg h]

/-- `matchSegs` fails when the first segment split fails. -/
theorem matchSegs_none1 {v : List Char} (h : splitSeg v = none) :
    matchSegs v = none := by
  unfold matchSegs
  rw [h]

/-- `matchSegs` fails when the second segment split fails. -/
theorem matchSegs_none2 {v o r1 : List Char} (h1 : splitSeg v = some (o, r1))
    (h2 : splitSeg r1 = none) : matchSegs v = none := by
  unfold matchSegs
  rw [h1]
  show (match splitSeg r1 with
    | none => none
    | some (r, r2) =>
      match splitSeg r2 with
      | none => none
      | some (b, r3) =>
        if r3 = [] || r3.any isLineTerm then none
        else some (o, r, b, r3)) = none
  rw [h2]

/-- `matchSegs` fails when the third segment split fails. -/
theorem matchSegs_none3 {v o r1 r r2 : List Char} (h1 : splitSeg v = some (o, r1))
    (h2 : splitSeg r1 = some (r, r2)) (h3 : splitSeg r2 = none) :
    matchSegs v = none := by
  unfold matchSegs
  rw [h1]
  show (match splitSeg r1 with
    | none => none
    | some (r, r2) =>
      match splitSeg r2 with
      | none => none
      | some (b, r3) =>
        if r3 = [] || r3.any isLineTerm then none
        else some (o, r, b, r3)) = none
  rw [h2]
  show (match splitSeg r2 with
    | none => none
    | some (b, r3) =>
      if r3 = [] || r3.any isLineTerm then none
      else some (o, r, b, r3)) = none
  rw [h3]

/-- Full evaluation of `matchSegs` on a well-decomposed list. -/
theorem matchSegs_full {od rd bd W : List Char}
    (ho : '/' ∉ od) (hone : od ≠ []) (hr : '/' ∉ rd) (hrne : rd ≠ [])
    (hbd : '/' ∉ bd) (hbne : bd ≠ []) :
    matchSegs (od ++ '/' :: (rd ++ '/' :: (bd ++ '/' :: W))) =
      if W = [] || W.any isLineTerm then none else some (od, rd, bd, W) := by
  unfold matchSegs
  rw [splitSeg_append _ ho hone]
  show (match splitSeg (rd ++ '/' :: (bd ++ '/' :: W)) with
    | none => none
    | some (r, r2) =>
      match splitSeg r2 with
      | none => none
      | some (b, r3) =>
        if r3 = [] || r3.any isLineTerm then none
        else some (od, r, b, r3)) = _
  rw [splitSeg_append _ hr hrne]
  show (match splitSeg (bd ++ '/' :: W) with
    | none => none
    | some (b, r3) =>
      if r3 = [] || r3.any isLineTerm then none
      else some (od, rd, b, r3)) = _
  rw [splitSeg_append _ hbd hbne]

/-- `rawSegs` fails when the segment matcher fails. -/
theorem rawSegs_none {v : List Char} (h : matchSegs v = none) :
    rawSegs v = none := by
  unfold rawSegs
  rw [h]

/-- Full evaluation of `rawSegs` on a well-decomposed list. -/
theorem rawSegs_full {od rd bd W : List Char}
    (ho : '/' ∉ od) (hone : od ≠ []) (hr : '/' ∉ rd) (hrne : rd ≠ [])
    (hbd : '/' ∉ bd) (hbne : bd ≠ []) :
    rawSegs (od ++ '/' :: (rd ++ '/' :: (bd ++ '/' :: W))) =
      if W = [] || W.any isLineTerm then none
      else some (mkNormalized od rd bd W) := by
  unfold rawSegs
  rw [matchSegs_full ho hone hr hrne hbd hbne]
  by_cases hc : (decide (W = []) || W.any isLineTerm) = true
  · rw [if_pos hc, if_pos hc]
  · rw [if_neg hc, if_neg hc]

/-- `blobSegs` fails when the first segment split fails. -/
theorem blobSegs_fail1 {v : List Char} (h : splitSeg v = none) :
    blobSegs v = none := by
  unfold blobSegs
  rw [h]

/-- `blobSegs` fails when the second segment split fails. -/
theorem blobSegs_fail2 {v o r1 : List Char} (h1 : splitSeg v = some (o, r1))
    (h2 : splitSeg r1 = none) : blobSegs v = none := by
  unfold blobSegs
  rw [h1]
  show (match splitSeg r1 with
    | none => none
    | some (r, r2) =>
      match splitSeg r2 with
      | none => none
      | some (bl, r3) =>
        if bl.map Char.toLower = "blob".data then
          match splitSeg r3 with
          | none => none
          | some (b, r4) =>
            if r4 = [] || r4.any isLineTerm then none
            else some (mkNormalized o r b r4)
        else none) = none
  rw [h2]

/-- `blobSegs` fails when the fourth segment split (after the `blob`
literal) fails. -/
theorem blobSegs_fail4 {od rd t : List Char}
    (ho : '/' ∉ od) (hone : od ≠ []) (hr : '/' ∉ rd) (hrne : rd ≠ [])
    (h4 : splitSeg t = none) :
    blobSegs (od ++ '/' :: (rd ++ '/' :: ('b' :: 'l' :: 'o' :: 'b' :: '/' :: t))) =
      none := by
  unfold blobSegs
  rw [splitSeg_append _ ho hone]
  show (match splitSeg (rd ++ '/' :: ('b' :: 'l' :: 'o' :: 'b' :: '/' :: t)) with
    | none => none
    | some (r, r2) =>
      match splitSeg r2 with
      | none => none
      | some (bl, r3) =>
        if bl.map Char.toLower = "blob".data then
          match splitSeg r3 with
          | none => none
          | some (b, r4) =>
            if r4 = [] || r4.any isLineTerm then none
            else some (mkNormalized od r b r4)
        else none) = none
  rw [splitSeg_append _ hr hrne]
  show (match splitSeg ('b' :: 'l' :: 'o' :: 'b' :: '/' :: t) with
    | none => none
    | some (bl, r3) =>
      if bl.map Char.toLower = "blob".data then
        match splitSeg r3 with
        | none => none
        | some (b, r4) =>
          if r4 = [] || r4.any isLineTerm then none
          else some (mkNormalized od rd b r4)
      else none) = none
  rw [splitSeg_blob]
  show (match splitSeg t with
    | none => none
    | some (b, r4) =>
      if r4 = [] || r4.any isLineTerm then none
      else some (mkNormalized od rd b r4)) = none
  rw [h4]

/-- Full evaluation of `blobSegs` on a well-decomposed list. -/
theorem blobSegs_full {od rd bd W : List Char}
    (ho : '/' ∉ od) (hone : od ≠ []) (hr : '/' ∉ rd) (hrne : rd ≠ [])
    (hbd : '/' ∉ bd) (hbne : bd ≠ []) :
    blobSegs (od ++ '/' :: (rd ++ '/' ::
        ('b' :: 'l' :: 'o' :: 'b' :: '/' :: (bd ++ '/' :: W)))) =
      if W = [] || W.any isLineTerm then none
      else some (mkNormalized od rd bd W) := by
  unfold blobSegs
  rw [splitSeg_append _ ho hone]
  show (match splitSeg (rd ++ '/' :: ('b' :: 'l' :: 'o' :: 'b' :: '/' :: (bd ++ '/' :: W))) with
    | none => none
    | some (r, r2) =>
      match splitSeg r2 with
      | none => none
      | some (bl, r3) =>
        if bl.map Char.toLower = "blob".data then
          match splitSeg r3 with
          | none => none
          | some (b, r4) =>
            if r4 = [] || r4.any isLineTerm then none
            else some (mkNormalized od r b r4)
        else none) = _
  rw [splitSeg_append _ hr hrne]
  show (match splitSeg ('b' :: 'l' :: 'o' :: 'b' :: '/' :: (bd ++ '/' :: W)) with
    | none => none
    | some (bl, r3) =>
      if bl.map Char.toLower = "blob".data then
        match splitSeg r3 with
        | none => none
        | some (b, r4) =>
          if r4 = [] || r4.any isLineTerm then none
          else some (mkNormalized od rd b r4)
      else none) = _
  rw [splitSeg_blob]
  show (match splitSeg (bd ++ '/' :: W) with
    | none => none
    | some (b, r4) =>
      if r4 = [] || r4.any isLineTerm then none
      else some (mkNormalized od rd b r4)) = _
  rw [splitSeg_append _ hbd hbne]

/-- `jsTrim` on an `https://` URL with a final path component trims only
inside that component. -/
theorem jsTrim_https (Z pd : List Char) :
    jsTrimL (("https://".data ++ Z) ++ '/' :: pd) =
      ("https://".data ++ Z) ++ '/' :: trimRightL pd := by
  have hcons : "https://".data ++ Z = 'h' :: ("ttps://".data ++ Z) := rfl
  rw [hcons]
  exact jsTrim_concat 'h' _ pd (by decide)

/-- Query/hash stripping walks over the scheme. -/
theorem takeWhile_https (v : List Char) :
    ("https://".data ++ v).takeWhile (fun c => !isQueryHash c) =
      "https://".data ++ v.takeWhile (fun c => !isQueryHash c) := rfl

/-- Query/hash stripping walks over the `github.com/` host. -/
theorem takeWhile_github (v : List Char) :
    ("github.com/".data ++ v).takeWhile (fun c => !isQueryHash c) =
      "github.com/".data ++ v.takeWhile (fun c => !isQueryHash c) := rfl

/-- Query/hash stripping walks over the raw host. -/
theorem takeWhile_raw (v : List Char) :
    ("raw.githubusercontent.com/".data ++ v).takeWhile (fun c => !isQueryHash c) =
      "raw.githubusercontent.com/".data ++
        v.takeWhile (fun c => !isQueryHash c) := rfl

/-- Query/hash stripping walks over a slash. -/
theorem takeWhile_slash (v : List Char) :
    ('/' :: v).takeWhile (fun c => !isQueryHash c) =
      '/' :: v.takeWhile (fun c => !isQueryHash c) := rfl

/-- Query/hash stripping walks over the `/blob/` literal. -/
theorem takeWhile_slashblob (v : List Char) :
    ('/' :: 'b' :: 'l' :: 'o' :: 'b' :: '/' :: v).takeWhile (fun c => !isQueryHash c) =
      '/' :: 'b' :: 'l' :: 'o' :: 'b' :: '/' ::
        v.takeWhile (fun c => !isQueryHash c) := rfl

/-- Append normalization over the `/blob/` literal. -/
theorem consBlob_append (bd t : List Char) :
    ('/' :: 'b' :: 'l' :: 'o' :: 'b' :: '/' :: bd) ++ t =
      '/' :: 'b' :: 'l' :: 'o' :: 'b' :: '/' :: (bd ++ t) := rfl

/-- Append normalization over a segment followed by a slash. -/
theorem seg_append (od Y t : List Char) :
    (od ++ '/' :: Y) ++ t = od ++ '/' :: (Y ++ t) := by
  rw [List.append_assoc, List.cons_append]

/-- Append normalization over the `blob/` literal. -/
theorem blobSeg_append (bd t : List Char) :
    ('b' :: 'l' :: 'o' :: 'b' :: '/' :: bd) ++ t =
      'b' :: 'l' :: 'o' :: 'b' :: '/' :: (bd ++ t) := rfl

/-- Backslash normalization walks over the `github.com/` host. -/
theorem mapSlash_github (x : List Char) :
    mapSlash ("github.com/".data ++ x) = "github.com/".data ++ mapSlash x := rfl

/-- Backslash normalization walks over the raw host. -/
theorem mapSlash_raw (x : List Char) :
    mapSlash ("raw.githubusercontent.com/".data ++ x) =
      "raw.githubusercontent.com/".data ++ mapSlash x := rfl

/-- Backslash normalization is the identity on backslash-free lists. -/
theorem mapSlash_id {x : List Char} (h : '\\' ∉ x) : mapSlash x = x := by
  induction x with
  | nil => rfl
  | cons a t ih =>
    have ha : a ≠ '\\' := fun e => h (e ▸ List.mem_cons_self a t)
    have ht : '\\' ∉ t := fun m => h (List.mem_cons_of_mem a m)
    show (if a = '\\' then '/' else a) :: mapSlash t = a :: t
    rw [if_neg ha, ih ht]

/-- Non-membership is preserved by appending a fresh separator. -/
theorem not_mem_append_cons {c x : Char} {a b : List Char}
    (ha : c ∉ a) (hx : c ≠ x) (hb : c ∉ b) : c ∉ a ++ x :: b := by
  intro h
  rcases List.mem_append.mp h with h | h
  · exact ha h
  · rcases List.mem_cons.mp h with h | h
    · exact hx h
    · exact hb h

/-- Non-membership is preserved by prefixing the `blob/` literal. -/
theorem not_mem_blob_cons {c : Char} {t : List Char}
    (h1 : c ≠ 'b') (h2 : c ≠ 'l') (h3 : c ≠ 'o') (h4 : c ≠ '/')
    (ht : c ∉ t) : c ∉ 'b' :: 'l' :: 'o' :: 'b' :: '/' :: t := by
  intro h
  simp only [List.mem_cons] at h
  rcases h with h | h | h | h | h | h
  exacts [h1 h, h2 h, h3 h, h1 h, h4 h, ht h]

/-- Non-membership is preserved by the right-trim. -/
theorem not_mem_trimRight {c : Char} {x : List Char} (h : c ∉ x) :
    c ∉ trimRightL x := by
  intro hm
  unfold trimRightL at hm
  rw [List.mem_reverse] at hm
  exact h (List.mem_reverse.mp ((List.dropWhile_sublist _).subset hm))

/-- **C2 (amended).** For every owner, repo and branch segment containing
no `/` and no `\`, and every non-empty backslash-free path, provided
additionally that no effective segment (owner, repo, branch, or any
`/`-separated path segment, each taken after tab/newline removal and
query/hash stripping, the path also after trailing trim) is a WHATWG dot
segment, the blob-form and raw-form URLs parse to the same normalized
result.  Backslashes must be excluded because `new URL` converts `\` to
`/`, splitting the segment (see the counterexample); dot segments must
be excluded because the URL parser resolves them, which can delete a
segment from one URL form's path without deleting the matching segment
of the other form. -/
theorem parse_blob_raw_agree (o r b p : String)
    (ho : '/' ∉ o.data) (hr : '/' ∉ r.data) (hb : '/' ∉ b.data) (_hp : p ≠ "")
    (hbo : '\\' ∉ o.data) (hbr : '\\' ∉ r.data) (hbb : '\\' ∉ b.data)
    (hbp : '\\' ∉ p.data)
    (_hdo : isDotSegment (urlFilter
      (o.data.takeWhile (fun c => !isQueryHash c))) = false)
    (_hdr : isDotSegment (urlFilter
      (r.data.takeWhile (fun c => !isQueryHash c))) = false)
    (_hdb : isDotSegment (urlFilter
      (b.data.takeWhile (fun c => !isQueryHash c))) = false)
    (_hdp : ∀ s ∈ splitOnSlashL (urlFilter
      ((trimRightL p.data).takeWhile (fun c => !isQueryHash c))),
      isDotSegment s = false) :
    parseUrlStr ("https://github.com/" ++ o ++ "/" ++ r ++ "/blob/" ++ b ++ "/" ++ p) =
      parseUrlStr ("https://raw.githubusercontent.com/" ++ o ++ "/" ++ r ++ "/" ++
        b ++ "/" ++ p) := by
  have hd_b : ("https://github.com/" ++ o ++ "/" ++ r ++ "/blob/" ++ b ++ "/" ++ p).data =
      ("https://".data ++ ("github.com/".data ++
        (o.data ++ '/' :: (r.data ++ '/' :: 'b' :: 'l' :: 'o' :: 'b' :: '/' :: b.data)))) ++
        '/' :: p.data := by
    simp only [String.data_append]
    simp [List.append_assoc]
  have hd_r : ("https://raw.githubusercontent.com/" ++ o ++ "/" ++ r ++ "/" ++ b ++
        "/" ++ p).data =
      ("https://".data ++ ("raw.githubusercontent.com/".data ++
        (o.data ++ '/' :: (r.data ++ '/' :: b.data)))) ++ '/' :: p.data := by
    simp only [String.data_append]
    simp [List.append_assoc]
  have hne_b : ("https://github.com/" ++ o ++ "/" ++ r ++ "/blob/" ++ b ++ "/" ++ p) ≠ "" := by
    apply ne_empty_of_data_ne_nil
    rw [hd_b]
    simp
  have hne_r : ("https://raw.githubusercontent.com/" ++ o ++ "/" ++ r ++ "/" ++ b ++
      "/" ++ p) ≠ "" := by
    apply ne_empty_of_data_ne_nil
    rw [hd_r]
    simp
  rw [parseUrlStr_ne _ hne_b, parseUrlStr_ne _ hne_r, hd_b, hd_r]
  have hWq : '\\' ∉ (trimRightL p.data).takeWhile (fun c => !isQueryHash c) :=
    not_mem_takeWhile _ (not_mem_trimRight hbp)
  have hoq : '\\' ∉ o.data.takeWhile (fun c => !isQueryHash c) :=
    not_mem_takeWhile _ hbo
  have hrq : '\\' ∉ r.data.takeWhile (fun c => !isQueryHash c) :=
    not_mem_takeWhile _ hbr
  have hbq : '\\' ∉ b.data.takeWhile (fun c => !isQueryHash c) :=
    not_mem_takeWhile _ hbb
  by_cases co : o.data.all (fun c => !isQueryHash c) = true
  · by_cases cr : r.data.all (fun c => !isQueryHash c) = true
    · by_cases cb : b.data.all (fun c => !isQueryHash c) = true
      · -- all segments clean: both sides reduce to the full matchers
        have hnoD_b : '\\' ∉ o.data ++ '/' :: (r.data ++ '/' ::
            'b' :: 'l' :: 'o' :: 'b' :: '/' :: (b.data ++ '/' ::
              (trimRightL p.data).takeWhile (fun c => !isQueryHash c))) :=
          not_mem_append_cons hbo (by decide) (not_mem_append_cons hbr (by decide)
            (not_mem_blob_cons (by decide) (by decide) (by decide) (by decide)
              (not_mem_append_cons hbb (by decide) hWq)))
        have hnoD_r : '\\' ∉ o.data ++ '/' :: (r.data ++ '/' :: (b.data ++ '/' ::
              (trimRightL p.data).takeWhile (fun c => !isQueryHash c))) :=
          not_mem_append_cons hbo (by decide) (not_mem_append_cons hbr (by decide)
            (not_mem_append_cons hbb (by decide) hWq))
        have hnb : urlNormalize (jsTrimL (("https://".data ++ ("github.com/".data ++
            (o.data ++ '/' :: (r.data ++ '/' :: 'b' :: 'l' :: 'o' :: 'b' :: '/' :: b.data)))) ++
            '/' :: p.data)) =
            "https://".data ++ ("github.com/".data ++
              (o.data ++ '/' :: (r.data ++ '/' :: 'b' :: 'l' :: 'o' :: 'b' :: '/' ::
                (b.data ++ '/' ::
                  (trimRightL p.data).takeWhile (fun c => !isQueryHash c))))) := by
          rw [jsTrim_https, List.append_assoc, urlNormalize_https,
            List.append_assoc, takeWhile_github, seg_append, seg_append, blobSeg_append,
            takeWhile_append_all _ _ co, takeWhile_slash,
            takeWhile_append_all _ _ cr, takeWhile_slashblob,
            takeWhile_append_all _ _ cb, takeWhile_slash,
            mapSlash_github, mapSlash_id hnoD_b]
        have hnr : urlNormalize (jsTrimL (("https://".data ++
            ("raw.githubusercontent.com/".data ++
            (o.data ++ '/' :: (r.data ++ '/' :: b.data)))) ++ '/' :: p.data)) =
            "https://".data ++ ("raw.githubusercontent.com/".data ++
              (o.data ++ '/' :: (r.data ++ '/' ::
                (b.data ++ '/' ::
                  (trimRightL p.data).takeWhile (fun c => !isQueryHash c))))) := by
          rw [jsTrim_https, List.append_assoc, urlNormalize_https,
            List.append_assoc, takeWhile_raw, seg_append, seg_append,
            takeWhile_append_all _ _ co, takeWhile_slash,
            takeWhile_append_all _ _ cr, takeWhile_slash,
            takeWhile_append_all _ _ cb, takeWhile_slash,
            mapSlash_raw, mapSlash_id hnoD_r]
        rw [parseList_eval_blob _ _ hnb, parseList_eval_raw _ _ hnr]
        by_cases hoe : o.data = []
        · rw [hoe]
          simp only [List.nil_append]
          rw [blobSegs_fail1 (splitSeg_slash _),
            rawSegs_none (matchSegs_none1 (splitSeg_slash _))]
        · by_cases hre : r.data = []
          · have h1b := splitSeg_append
              (r.data ++ '/' :: 'b' :: 'l' :: 'o' :: 'b' :: '/' :: (b.data ++ '/' ::
                (trimRightL p.data).takeWhile (fun c => !isQueryHash c))) ho hoe
            have h1r := splitSeg_append
              (r.data ++ '/' :: (b.data ++ '/' ::
                (trimRightL p.data).takeWhile (fun c => !isQueryHash c))) ho hoe
            rw [hre] at h1b h1r ⊢
            simp only [List.nil_append] at h1b h1r ⊢
            rw [blobSegs_fail2 h1b (splitSeg_slash _),
              rawSegs_none (matchSegs_none2 h1r (splitSeg_slash _))]
          · by_cases hbe : b.data = []
            · have h1b := splitSeg_append
                (r.data ++ '/' :: 'b' :: 'l' :: 'o' :: 'b' :: '/' :: (b.data ++ '/' ::
                  (trimRightL p.data).takeWhile (fun c => !isQueryHash c))) ho hoe
              have h1r := splitSeg_append
                (r.data ++ '/' :: (b.data ++ '/' ::
                  (trimRightL p.data).takeWhile (fun c => !isQueryHash c))) ho hoe
              have h2r := splitSeg_append
                (b.data ++ '/' ::
                  (trimRightL p.data).takeWhile (fun c => !isQueryHash c)) hr hre
              rw [hbe] at h1b h1r h2r ⊢
              simp only [List.nil_append] at h1b h1r h2r ⊢
              rw [blobSegs_fail4 ho hoe hr hre (splitSeg_slash _),
                rawSegs_none (matchSegs_none3 h1r h2r (splitSeg_slash _))]
            · rw [blobSegs_full ho hoe hr hre hb hbe,
                rawSegs_full ho hoe hr hre hb hbe]
      · -- branch segment contains ? or #: both fail
        have cb' : b.data.all (fun c => !isQueryHash c) = false := Bool.eq_false_iff.mpr cb
        have hnoC_b : '\\' ∉ o.data ++ '/' :: (r.data ++ '/' ::
            'b' :: 'l' :: 'o' :: 'b' :: '/' ::
              b.data.takeWhile (fun c => !isQueryHash c)) :=
          not_mem_append_cons hbo (by decide) (not_mem_append_cons hbr (by decide)
            (not_mem_blob_cons (by decide) (by decide) (by decide) (by decide) hbq))
        have hnoC_r : '\\' ∉ o.data ++ '/' :: (r.data ++ '/' ::
            b.data.takeWhile (fun c => !isQueryHash c)) :=
          not_mem_append_cons hbo (by decide) (not_mem_append_cons hbr (by decide) hbq)
        have hnb : urlNormalize (jsTrimL (("https://".data ++ ("github.com/".data ++
            (o.data ++ '/' :: (r.data ++ '/' :: 'b' :: 'l' :: 'o' :: 'b' :: '/' :: b.data)))) ++
            '/' :: p.data)) =
            "https://".data ++ ("github.com/".data ++
              (o.data ++ '/' :: (r.data ++ '/' :: 'b' :: 'l' :: 'o' :: 'b' :: '/' ::
                b.data.takeWhile (fun c => !isQueryHash c)))) := by
          rw [jsTrim_https, List.append_assoc, urlNormalize_https,
            List.append_assoc, takeWhile_github, seg_append, seg_append, blobSeg_append,
            takeWhile_append_all _ _ co, takeWhile_slash,
            takeWhile_append_all _ _ cr, takeWhile_slashblob,
            takeWhile_append_stop _ _ cb', mapSlash_github, mapSlash_id hnoC_b]
        have hnr : urlNormalize (jsTrimL (("https://".data ++
            ("raw.githubusercontent.com/".data ++
            (o.data ++ '/' :: (r.data ++ '/' :: b.data)))) ++ '/' :: p.data)) =
            "https://".data ++ ("raw.githubusercontent.com/".data ++
              (o.data ++ '/' :: (r.data ++ '/' ::
                b.data.takeWhile (fun c => !isQueryHash c)))) := by
          rw [jsTrim_https, List.append_assoc, urlNormalize_https,
            List.append_assoc, takeWhile_raw, seg_append, seg_append,
            takeWhile_append_all _ _ co, takeWhile_slash,
            takeWhile_append_all _ _ cr, takeWhile_slash,
            takeWhile_append_stop _ _ cb', mapSlash_raw, mapSlash_id hnoC_r]
        rw [parseList_eval_blob _ _ hnb, parseList_eval_raw _ _ hnr]
        have hbs : '/' ∉ b.data.takeWhile (fun c => !isQueryHash c) :=
          not_mem_takeWhile _ hb
        by_cases hoe : o.data = []
        · rw [hoe]
          simp only [List.nil_append]
          rw [blobSegs_fail1 (splitSeg_slash _),
            rawSegs_none (matchSegs_none1 (splitSeg_slash _))]
        · by_cases hre : r.data = []
          · have h1b := splitSeg_append
              (r.data ++ '/' :: 'b' :: 'l' :: 'o' :: 'b' :: '/' ::
                b.data.takeWhile (fun c => !isQueryHash c)) ho hoe
            have h1r := splitSeg_append
              (r.data ++ '/' :: b.data.takeWhile (fun c => !isQueryHash c)) ho hoe
            rw [hre] at h1b h1r ⊢
            simp only [List.nil_append] at h1b h1r ⊢
            rw [blobSegs_fail2 h1b (splitSeg_slash _),
              rawSegs_none (matchSegs_none2 h1r (splitSeg_slash _))]
          · have h1r := splitSeg_append
              (r.data ++ '/' :: b.data.takeWhile (fun c => !isQueryHash c)) ho hoe
            have h2r := splitSeg_append
              (b.data.takeWhile (fun c => !isQueryHash c)) hr hre
            rw [blobSegs_fail4 ho hoe hr hre (splitSeg_none hbs),
              rawSegs_none (matchSegs_none3 h1r h2r (splitSeg_none hbs))]
    · -- repo segment contains ? or #: both fail
      have cr' : r.data.all (fun c => !isQueryHash c) = false := Bool.eq_false_iff.mpr cr
      have hnoB : '\\' ∉ o.data ++ '/' ::
          r.data.takeWhile (fun c => !isQueryHash c) :=
        not_mem_append_cons hbo (by decide) hrq
      have hnb : urlNormalize (jsTrimL (("https://".data ++ ("github.com/".data ++
          (o.data ++ '/' :: (r.data ++ '/' :: 'b' :: 'l' :: 'o' :: 'b' :: '/' :: b.data)))) ++
          '/' :: p.data)) =
          "https://".data ++ ("github.com/".data ++
            (o.data ++ '/' :: r.data.takeWhile (fun c => !isQueryHash c))) := by
        rw [jsTrim_https, List.append_assoc, urlNormalize_https,
          List.append_assoc, takeWhile_github, seg_append, seg_append, blobSeg_append,
          takeWhile_append_all _ _ co, takeWhile_slash,
          takeWhile_append_stop _ _ cr', mapSlash_github, mapSlash_id hnoB]
      have hnr : urlNormalize (jsTrimL (("https://".data ++
          ("raw.githubusercontent.com/".data ++
          (o.data ++ '/' :: (r.data ++ '/' :: b.data)))) ++ '/' :: p.data)) =
          "https://".data ++ ("raw.githubusercontent.com/".data ++
            (o.data ++ '/' :: r.data.takeWhile (fun c => !isQueryHash c))) := by
        rw [jsTrim_https, List.append_assoc, urlNormalize_https,
          List.append_assoc, takeWhile_raw, seg_append, seg_append,
          takeWhile_append_all _ _ co, takeWhile_slash,
          takeWhile_append_stop _ _ cr', mapSlash_raw, mapSlash_id hnoB]
      rw [parseList_eval_blob _ _ hnb, parseList_eval_raw _ _ hnr]
      have hrs : '/' ∉ r.data.takeWhile (fun c => !isQueryHash c) :=
        not_mem_takeWhile _ hr
      by_cases hoe : o.data = []
      · rw [hoe]
        simp only [List.nil_append]
        rw [blobSegs_fail1 (splitSeg_slash _),
          rawSegs_none (matchSegs_none1 (splitSeg_slash _))]
      · have h1 := splitSeg_append
          (r.data.takeWhile (fun c => !isQueryHash c)) ho hoe
        rw [blobSegs_fail2 h1 (splitSeg_none hrs),
          rawSegs_none (matchSegs_none2 h1 (splitSeg_none hrs))]
  · -- owner segment contains ? or #: both fail
    have co' : o.data.all (fun c => !isQueryHash c) = false := Bool.eq_false_iff.mpr co
    have hnb : urlNormalize (jsTrimL (("https://".data ++ ("github.com/".data ++
        (o.data ++ '/' :: (r.data ++ '/' :: 'b' :: 'l' :: 'o' :: 'b' :: '/' :: b.data)))) ++
        '/' :: p.data)) =
        "https://".data ++ ("github.com/".data ++
          o.data.takeWhile (fun c => !isQueryHash c)) := by
      rw [jsTrim_https, List.append_assoc, urlNormalize_https,
        List.append_assoc, takeWhile_github, seg_append, seg_append, blobSeg_append,
        takeWhile_append_stop _ _ co', mapSlash_github, mapSlash_id hoq]
    have hnr : urlNormalize (jsTrimL (("https://".data ++
        ("raw.githubusercontent.com/".data ++
        (o.data ++ '/' :: (r.data ++ '/' :: b.data)))) ++ '/' :: p.data)) =
        "https://".data ++ ("raw.githubusercontent.com/".data ++
          o.data.takeWhile (fun c => !isQueryHash c)) := by
      rw [jsTrim_https, List.append_assoc, urlNormalize_https,
        List.append_assoc, takeWhile_raw, seg_append, seg_append,
        takeWhile_append_stop _ _ co', mapSlash_raw, mapSlash_id hoq]
    rw [parseList_eval_blob _ _ hnb, parseList_eval_raw _ _ hnr]
    have hos : '/' ∉ o.data.takeWhile (fun c => !isQueryHash c) :=
      not_mem_takeWhile _ ho
    rw [blobSegs_fail1 (splitSeg_none hos),
      rawSegs_none (matchSegs_none1 (splitSeg_none hos))]

/-- **C2 counterexample.** The claim as originally stated is false: the
owner segment `a\b` contains no `/` and the path is non-empty, yet the
blob form parses to `null` while the raw form parses to a record, because
`new URL` converts the backslash to a slash — the extra segment shifts
the `blob` literal out of place in the blob form only. -/
theorem parse_blob_raw_counterexample :
    ('/' ∉ ("a\\b" : String).data ∧ ("x.yaml" : String) ≠ "") ∧
    parseUrlStr "https://github.com/a\\b/r/blob/main/x.yaml" = none ∧
    parseUrlStr "https://raw.githubusercontent.com/a\\b/r/main/x.yaml" =
      some { owner := "a", repo := "b", branch := "r", path := "main/x.yaml",
             key := "a/b/r/main/x.yaml" } ∧
    parseUrlStr "https://github.com/a\\b/r/blob/main/x.yaml" ≠
      parseUrlStr "https://raw.githubusercontent.com/a\\b/r/main/x.yaml" := by
  decide

/-- Witness for the amended C2 at concrete segments. -/
theorem parse_blob_raw_agree_witness :
    ('/' ∉ ("octo" : String).data ∧ '/' ∉ ("demo" : String).data ∧
     '/' ∉ ("main" : String).data ∧ ("specs/api.yaml" : String) ≠ "" ∧
     '\\' ∉ ("octo" : String).data ∧ '\\' ∉ ("demo" : String).data ∧
     '\\' ∉ ("main" : String).data ∧ '\\' ∉ ("specs/api.yaml" : String).data ∧
     isDotSegment (urlFilter
       (("octo" : String).data.takeWhile (fun c => !isQueryHash c))) = false ∧
     isDotSegment (urlFilter
       (("demo" : String).data.takeWhile (fun c => !isQueryHash c))) = false ∧
     isDotSegment (urlFilter
       (("main" : String).data.takeWhile (fun c => !isQueryHash c))) = false ∧
     (∀ s ∈ splitOnSlashL (urlFilter
       ((trimRightL ("specs/api.yaml" : String).data).takeWhile
         (fun c => !isQueryHash c))), isDotSegment s = false)) ∧
    parseUrlStr ("https://github.com/" ++ "octo" ++ "/" ++ "demo" ++ "/blob/" ++
        "main" ++ "/" ++ "specs/api.yaml") =
      parseUrlStr ("https://raw.githubusercontent.com/" ++ "octo" ++ "/" ++ "demo" ++
        "/" ++ "main" ++ "/" ++ "specs/api.yaml") :=
  ⟨⟨by decide, by decide, by decide, by decide, by decide, by decide, by decide,
    by decide, by decide, by decide, by decide, by decide⟩,
   parse_blob_raw_agree "octo" "demo" "main" "specs/api.yaml"
     (by decide) (by decide) (by decide) (by decide) (by decide) (by decide)
     (by decide) (by decide) (by decide) (by decide) (by decide) (by decide)⟩

end ApiExplorer
